import Mathlib

/-!
Verification of the mathru dense linear-algebra and ODE-integration core.

The Rust sources are embedded shallowly: the scalar type `T` of the library
(`T: Real` in Rust) is modelled as a linear ordered field together with an
explicit `pw : T → T → T` parameter standing for the `pow` method of the
`Real` trait; matrices are rows/cols plus a flat column-major buffer, exactly
as in the library.  Rust panics are modelled as `Option.none` results,
`Result` values as `Except`.  Loops whose termination is not structural
(the adaptive ODE stepping loops) take an explicit fuel argument; `none`
means the loop was not finished within the given fuel.
-/

namespace Mathru

/-- Dense matrix: `(rows, cols, data)` with a flat column-major buffer;
entry `(i, j)` lives at `data[j * m + i]` (see algebra/linear/matrix). -/
structure Matrix (T : Type) where
  m : Nat
  n : Nat
  data : List T
deriving DecidableEq

namespace Matrix

variable {T : Type} [LinearOrderedField T]

/-- Dimension pair `(rows, cols)` as returned by `Matrix::dim`. -/
def dim (A : Matrix T) : Nat × Nat := (A.m, A.n)

/-- Entry `a_ij`, `Matrix::get`: `data[j * m + i]` (column-major); out of
range indices yield the junk value `0` (the Rust code would panic). -/
def get (A : Matrix T) (i j : Nat) : T := A.data.getD (j * A.m + i) 0

/-- Functional update of entry `(i, j)`, `Matrix::get_mut` followed by a
store: `data[j * m + i] = v`. -/
def set (A : Matrix T) (i j : Nat) (v : T) : Matrix T :=
  ⟨A.m, A.n, A.data.set (j * A.m + i) v⟩

/-- Modelled from the spec: `Matrix::zero` (matrix.rs is absent from src/);
an `m × n` matrix of zeros. -/
def zero (m n : Nat) : Matrix T := ⟨m, n, List.replicate (m * n) 0⟩

/-- Build an `m × n` matrix from an entry function, stored column-major. -/
def ofFn (m n : Nat) (f : Nat → Nat → T) : Matrix T :=
  ⟨m, n, ((List.range n).map (fun j => (List.range m).map (fun i => f i j))).flatten⟩

/-- Modelled from the spec: `Matrix::one` (matrix.rs is absent from src/);
the identity matrix. -/
def one (m : Nat) : Matrix T := ofFn m m (fun i j => if i = j then 1 else 0)

/-- Matrix-scalar multiplication from mul/native.rs: every buffer element
is multiplied by `k` on the right. -/
def scalarMul (A : Matrix T) (k : T) : Matrix T :=
  ⟨A.m, A.n, A.data.map (fun x => x * k)⟩

/-- Modelled from the spec: componentwise matrix subtraction (the sub
module is absent from src/); dimensions are the left operand's. -/
def sub (A B : Matrix T) : Matrix T :=
  ⟨A.m, A.n, List.zipWith (fun a b => a - b) A.data B.data⟩

/-- Matrix product from mul/native.rs: `prod[i, j] = Σ_k A[i, k] * B[k, j]`.
The source asserts `A.n = B.m`; per §7 of the spec this precondition is
guaranteed by the calling decomposition, so the model is total. -/
def mul (A B : Matrix T) : Matrix T :=
  ofFn A.m B.n (fun i j => ((List.range A.n).map (fun k => A.get i k * B.get k j)).sum)

/-- Modelled from the spec: `Matrix::transpose` (transpose.rs is absent
from src/). -/
def transpose (A : Matrix T) : Matrix T := ofFn A.n A.m (fun i j => A.get j i)

end Matrix

/-- Vector: thin wrapper over a `1 × n` or `n × 1` matrix (vector.rs is
absent from src/, but the wrapper layout is visible in
vector/index/index.rs, which reads `self.data.dim()`). -/
structure Vector (T : Type) where
  data : Matrix T
deriving DecidableEq

namespace Vector

variable {T : Type} [LinearOrderedField T]

/-- Modelled from the spec: `Vector::dim` returns the dimension of the
underlying matrix (vector.rs is absent from src/). -/
def dim (v : Vector T) : Nat × Nat := v.data.dim

/-- Component access `Vector::get` from vector/index/index.rs: linear
indexing on a row (`m = 1`) or column (`n = 1`) vector; the non-vector
case panics in Rust and yields junk `0` here. -/
def get (v : Vector T) (i : Nat) : T :=
  if v.data.m = 1 then v.data.get 0 i
  else if v.data.n = 1 then v.data.get i 0
  else 0

/-- Column vector from a list of components, `Vector::new_column` as used
by mul/native.rs. -/
def new_column (xs : List T) : Vector T := ⟨⟨xs.length, 1, xs⟩⟩

/-- Row vector from a list of components, `Vector::new_row`. -/
def new_row (xs : List T) : Vector T := ⟨⟨1, xs.length, xs⟩⟩

/-- The flat component buffer of the wrapped matrix. -/
def toList (v : Vector T) : List T := v.data.data

/-- Modelled from the spec: componentwise vector addition (the vector add
module is absent from src/); the orientation of the left operand is kept. -/
def add (v w : Vector T) : Vector T :=
  ⟨⟨v.data.m, v.data.n, List.zipWith (fun a b => a + b) v.data.data w.data.data⟩⟩

/-- Modelled from the spec: componentwise vector subtraction (the vector
sub module is absent from src/). -/
def vsub (v w : Vector T) : Vector T :=
  ⟨⟨v.data.m, v.data.n, List.zipWith (fun a b => a - b) v.data.data w.data.data⟩⟩

/-- Modelled from the spec: vector times scalar, componentwise (the vector
mul module is absent from src/). -/
def scalarMul (v : Vector T) (k : T) : Vector T :=
  ⟨⟨v.data.m, v.data.n, v.data.data.map (fun x => x * k)⟩⟩

/-- Modelled from the spec: vector divided by scalar, componentwise (the
vector div module is absent from src/). -/
def scalarDiv (v : Vector T) (k : T) : Vector T :=
  ⟨⟨v.data.m, v.data.n, v.data.data.map (fun x => x / k)⟩⟩

/-- Modelled from the spec: componentwise absolute value `Vector::abs`
(vector.rs is absent from src/). -/
def vabs (v : Vector T) : Vector T :=
  ⟨⟨v.data.m, v.data.n, v.data.data.map (fun x => |x|)⟩⟩

end Vector

/-- Scan a list keeping the index of the (first) strictly largest element
seen so far. -/
def argmaxAux {T : Type} [LinearOrder T] : List T → Nat → Nat → T → Nat
  | [], _, best, _ => best
  | x :: xs, i, best, bv =>
    if bv < x then argmaxAux xs (i + 1) i x else argmaxAux xs (i + 1) best bv

/-- Modelled from the spec: `Vector::argmax` (vector.rs is absent from
src/), the index of the first maximal component; `0` on the empty buffer. -/
def argmaxList {T : Type} [LinearOrder T] : List T → Nat
  | [] => 0
  | x :: xs => argmaxAux xs 1 0 x

/-- Index of the first maximal component of a vector. -/
def Vector.argmax {T : Type} [LinearOrderedField T] (v : Vector T) : Nat :=
  argmaxList v.toList

namespace Matrix

variable {T : Type} [LinearOrderedField T]

/-- Matrix-vector product from mul/native.rs: panics (`none`) unless
`A.n = v.dim().0`; otherwise the column vector with
`prod_i = Σ_k data[k * m + i] * v[k]`. -/
def vecMul (A : Matrix T) (v : Vector T) : Option (Vector T) :=
  if A.n ≠ v.data.m then none
  else some (Vector.new_column ((List.range A.m).map
    (fun i => ((List.range A.n).map (fun k => A.data.getD (k * A.m + i) 0 * v.get k)).sum)))

/-- Modelled from the spec: column `j` of the matrix as a column vector,
`Matrix::get_column` (matrix.rs is absent from src/). -/
def getColumn (A : Matrix T) (j : Nat) : Vector T :=
  Vector.new_column ((List.range A.m).map (fun i => A.get i j))

/-- Modelled from the spec (§4.5, substitute.rs is absent from src/):
forward substitution `x_i = (b_i − Σ_{k < i} L_{i,k} x_k) / L_{i,i}`,
row by row from the top. -/
def substitute_forward (L : Matrix T) (b : Vector T) : Vector T :=
  Vector.new_column ((List.range L.m).foldl
    (fun acc i =>
      acc ++ [(b.get i - ((List.range i).map (fun k => L.get i k * acc.getD k 0)).sum) / L.get i i])
    [])

/-- Helper for backward substitution: `backAux U b i acc` extends `acc`
(which holds `x_i, …, x_{m−1}`) downward to row `0`. -/
def backAux (U : Matrix T) (b : Vector T) : Nat → List T → List T
  | 0, acc => acc
  | i + 1, acc =>
    backAux U b i
      (((b.get i - ((List.range (U.m - 1 - i)).map
          (fun t => U.get i (i + 1 + t) * acc.getD t 0)).sum) / U.get i i) :: acc)

/-- Modelled from the spec (§4.5, substitute.rs is absent from src/):
backward substitution solving `Ux = b` from the last row upward. -/
def substitute_backward (U : Matrix T) (b : Vector T) : Vector T :=
  Vector.new_column (backAux U b U.m [])

end Matrix

/-- Result of an LU decomposition: the factors `l`, `u` and the permutation
matrix `p` (lu/ludec.rs). -/
structure LUDec (T : Type) where
  l : Matrix T
  u : Matrix T
  p : Matrix T
deriving DecidableEq

/-- `Solve<Vector<T>> for LUDec<T>` from lu/ludec.rs: permute the right-hand
side with `p`, substitute forward through `l`, then backward through `u`,
and wrap the result in `Ok`.  The outer `Option` is the panic channel of
the matrix-vector product `&self.p * rhs`. -/
def LUDec.solve {T : Type} [LinearOrderedField T] (dec : LUDec T) (rhs : Vector T) :
    Option (Except Unit (Vector T)) :=
  (dec.p.vecMul rhs).map
    (fun b_hat => Except.ok (dec.u.substitute_backward (dec.l.substitute_forward b_hat)))

/-- Result of a Cholesky decomposition (cholesky.rs). -/
structure CholeskyDec (T : Type) where
  l : Matrix T
deriving DecidableEq

namespace Matrix

variable {T : Type} [LinearOrderedField T]

/-- The row-by-row factorization loop of `dec_cholesky_r` under the
`native` feature (cholesky.rs lines 74-101): for `i` in `0..n`, `j` in
`0..i+1`, the diagonal entry is `pow(A[i,i] − Σ_{k<j} L[i,k]·L[j,k], 0.5)`
and the off-diagonal entry divides by the already computed diagonal. -/
def choleskyLoop (pw : T → T → T) (A : Matrix T) : Matrix T :=
  (List.range A.n).foldl
    (fun l i =>
      (List.range (i + 1)).foldl
        (fun l j =>
          let sum := ((List.range j).map (fun k => l.get i k * l.get j k)).sum
          if i = j then l.set i j (pw (A.get i i - sum) (1 / 2))
          else l.set i j ((A.get i j - sum) / l.get j j))
        l)
    (Matrix.zero A.m A.n)

/-- `dec_cholesky_r` under the `native` feature (cholesky.rs lines 74-101):
runs the factorization loop and unconditionally returns `Some`. -/
def dec_cholesky_r (pw : T → T → T) (A : Matrix T) : Option (CholeskyDec T) :=
  some ⟨choleskyLoop pw A⟩

/-- Zero the strictly upper triangle, as the `blaslapack` variant of
`dec_cholesky_r` does after the routine call (cholesky.rs lines 129-136). -/
def zeroUpper (l : Matrix T) : Matrix T :=
  (List.range l.n).foldl
    (fun l i => ((List.range l.n).drop (i + 1)).foldl (fun l j => l.set i j 0) l)
    l

/-- `dec_cholesky_r` under the `blaslapack` feature (cholesky.rs lines
104-139): the external routine `xpotrf` is a parameter returning the
factored buffer and the status code `info`; a negative `info` maps to
`None`, any other `info` yields `Some` of the lower triangle. -/
def dec_cholesky_r_lapack (xpotrf : Char → Int → List T → List T × Int) (A : Matrix T) :
    Option (CholeskyDec T) :=
  let res := xpotrf 'L' (A.n : Int) A.data
  if res.2 < 0 then none
  else some ⟨zeroUpper ⟨A.n, A.n, res.1⟩⟩

/-- `dec_cholesky` (cholesky.rs lines 66-71): asserts squareness — the
outer `Option` is the panic channel — then defers to `dec_cholesky_r`. -/
def dec_cholesky (pw : T → T → T) (A : Matrix T) : Option (Option (CholeskyDec T)) :=
  if A.m = A.n then some (dec_cholesky_r pw A) else none

/-- Modelled from the spec (§4.4): `Matrix::householder` (matrix.rs is
absent from src/) — the elementary reflector that fixes the first `k`
coordinates and reflects the tail of `v` onto a multiple of the `k`-th
basis vector, `H = I − 2wwᵗ/(wᵗw)`. -/
def householder (pw : T → T → T) (v : Vector T) (k : Nat) : Matrix T :=
  let mlen := v.data.m
  let normx := pw (((List.range (mlen - k)).map (fun t => v.get (k + t) * v.get (k + t))).sum) (1 / 2)
  let alpha := if 0 ≤ v.get k then -normx else normx
  let u : Nat → T := fun t => if t = 0 then v.get k - alpha else v.get (k + t)
  let normu2 := ((List.range (mlen - k)).map (fun t => u t * u t)).sum
  ofFn mlen mlen (fun i j =>
    if i < k ∨ j < k then (if i = j then 1 else 0)
    else (if i = j then 1 else 0) - 2 * u (i - k) * u (j - k) / normu2)

/-- `dec_hessenberg_r` under the `native` feature (hessenberg.rs lines
43-61): successive similarity transforms by Householder reflectors built
from the subdiagonal columns. -/
def dec_hessenberg_r (pw : T → T → T) (A : Matrix T) : Matrix T × Matrix T :=
  let qh := ((List.range A.m).drop 1).foldl
    (fun (qh : Matrix T × Matrix T) k =>
      let v := qh.2.getColumn (k - 1)
      let househ := householder pw v k
      let h := househ.mul qh.2
      let q := househ.mul qh.1
      let h := h.mul househ.transpose
      (q, h))
    (Matrix.one A.m, A)
  (qh.1.transpose, qh.2)

/-- `dec_hessenberg` (hessenberg.rs lines 34-40): asserts that the matrix
is square and non-empty (the `Option` is the panic channel), then defers
to `dec_hessenberg_r`. -/
def dec_hessenberg (pw : T → T → T) (A : Matrix T) : Option (Matrix T × Matrix T) :=
  if A.m ≠ A.n then none
  else if A.m = 0 then none
  else some (dec_hessenberg_r pw A)

end Matrix

/-- Result of a QR decomposition (qr/lapack.rs). -/
structure QRDec (T : Type) where
  q : Matrix T
  r : Matrix T
deriving DecidableEq

/-- The external routines delegated to by `dec_qr_r` (qr/lapack.rs), as
parameters: each returns its outputs together with the `info` status code. -/
structure LapackQr (T : Type) where
  xgeqrf_work_size : Int → Int → List T → Int × Int
  xgeqrf : Int → Int → List T → List T × List T × Int
  xorgqr_work_size : Int → Int → Int → List T → List T → Int × Int
  xorgqr : Int → Int → Int → List T → List T → List T × Int

namespace Matrix

variable {T : Type} [LinearOrderedField T]

/-- The `fn r` cleanup of qr/lapack.rs (lines 151-162): zero the entries
below the diagonal, `for i in 1..m, for k in 0..min(i, n)`. -/
def matR (A : Matrix T) : Matrix T :=
  ((List.range A.m).drop 1).foldl
    (fun B i => (List.range (min i B.n)).foldl (fun B k => B.set i k 0) B)
    A

/-- `dec_qr_r` (qr/lapack.rs lines 83-149): drives the external `xgeqrf`
and `xorgqr` routines; each `assert_eq!(0, info)` is a panic channel,
modelled as `none`. -/
def dec_qr_r (lp : LapackQr T) (A : Matrix T) : Option (QRDec T) :=
  let ws1 := lp.xgeqrf_work_size (A.m : Int) (A.n : Int) A.data
  if ws1.2 ≠ 0 then none
  else
    let f := lp.xgeqrf (A.m : Int) (A.n : Int) A.data
    if f.2.2 ≠ 0 then none
    else
      let r := matR ⟨A.m, A.n, f.1⟩
      let ws2 := lp.xorgqr_work_size (A.m : Int) ((min A.m A.n : Nat) : Int)
        ((min A.m A.n : Nat) : Int) f.1 f.2.1
      if ws2.2 ≠ 0 then none
      else
        let g := lp.xorgqr (A.m : Int) ((min A.m A.n : Nat) : Int)
          ((min A.m A.n : Nat) : Int) f.1 f.2.1
        if g.2 ≠ 0 then none
        else some ⟨⟨A.m, A.n, g.1⟩, r⟩

/-- `dec_qr` (qr/lapack.rs lines 75-81): `assert!(m >= n)` — panic
(`none`) when `rows < cols` — then defers to `dec_qr_r`. -/
def dec_qr (lp : LapackQr T) (A : Matrix T) : Option (QRDec T) :=
  if A.m < A.n then none else dec_qr_r lp A

end Matrix

/-- The `ExplicitODE` trait (explicit_ode.rs, whose file is absent from
src/; the interface is visible at every call site): derivative function,
time span and initial condition. -/
structure ExplicitODE (T : Type) where
  func : T → Vector T → Vector T
  time_span : T × T
  init_cond : Vector T

/-- The `ExplicitAdaptiveMethod` trait (explicit_method.rs, whose file is
absent from src/): an embedded step producing two estimates, and the pair
of orders. -/
structure ExplicitAdaptiveMethod (T : Type) where
  do_step : ExplicitODE T → T → Vector T → T → Vector T × Vector T
  order : Nat × Nat

/-- The mutable loop state of the adaptive solvers: current time, state,
step size, accepted-step counter and the recorded trajectory. -/
structure OdeState (T : Type) where
  t_n : T
  x_n : Vector T
  h : T
  n : Nat
  t_vec : List T
  res_vec : List (Vector T)
deriving DecidableEq

/-- Configuration of `AdaptiveStepper` (adaptive_stepper.rs lines 10-24). -/
structure AdaptiveStepper (T : Type) where
  n_max : Nat
  h_0 : T
  fac : T
  fac_min : T
  fac_max : T
  abs_tol : T
  rel_tol : T

namespace AdaptiveStepper

variable {T : Type} [LinearOrderedField T]

/-- `AdaptiveStepper::calc_error` (adaptive_stepper.rs lines 188-207):
with `(_m, n) = y.dim()`, the scaled differences
`k_i = (y_i − ŷ_i) / (abs_tol + max(|y_i|, |ŷ_i|)·rel_tol)` are summed as
squares over `i in 0..n` and `(sum / n).pow(0.5)` is returned. -/
def calc_error (pw : T → T → T) (cfg : AdaptiveStepper T) (y y_hat : Vector T) : T :=
  let n := (y.dim).2
  let sum := ((List.range n).map (fun i =>
    let sc := cfg.abs_tol + max |y.get i| |y_hat.get i| * cfg.rel_tol
    let k := (y.get i - y_hat.get i) / sc
    k * k)).sum
  pw (sum / (n : T)) (1 / 2)

/-- One iteration of the `while` loop of `AdaptiveStepper::solve`
(adaptive_stepper.rs lines 150-184): clip `h` to `t_stop − t_n`, take an
embedded step, accept it when `error ≤ 1`, and rescale `h` by the clamped
factor `fac·(1/error)^l` whenever `error ≠ 0`. -/
def step (pw : T → T → T) (cfg : AdaptiveStepper T) (prob : ExplicitODE T)
    (method : ExplicitAdaptiveMethod T) (t_stop l : T) (s : OdeState T) : OdeState T :=
  let h1 := min s.h (t_stop - s.t_n)
  let xs := method.do_step prob s.t_n s.x_n h1
  let err := calc_error pw cfg xs.1 xs.2
  let s1 : OdeState T :=
    if err ≤ 1 then
      ⟨s.t_n + h1, xs.1, h1, s.n + 1, s.t_vec ++ [s.t_n + h1], s.res_vec ++ [xs.1]⟩
    else { s with h := h1 }
  if err ≠ 0 then
    let s0 := cfg.fac * pw (1 / err) l
    let s2 := if s0 < cfg.fac_min then cfg.fac_min else s0
    let s3 := if cfg.fac_max < s2 then cfg.fac_max else s2
    { s1 with h := s3 * s1.h }
  else s1

/-- The `while n < n_max && t_n < t_stop` loop of `AdaptiveStepper::solve`,
fuelled; `none` means the fuel ran out before the loop condition failed. -/
def loop (pw : T → T → T) (cfg : AdaptiveStepper T) (prob : ExplicitODE T)
    (method : ExplicitAdaptiveMethod T) (t_stop l : T) : Nat → OdeState T → Option (OdeState T)
  | 0, s => if s.n < cfg.n_max ∧ s.t_n < t_stop then none else some s
  | fuel + 1, s =>
    if s.n < cfg.n_max ∧ s.t_n < t_stop then
      loop pw cfg prob method t_stop l fuel (step pw cfg prob method t_stop l s)
    else some s

/-- `AdaptiveStepper::solve` (adaptive_stepper.rs lines 123-186): panics
(`none` at the outer level) when `t_start > t_stop`, seeds the trajectory
with the initial condition, runs the loop, and always returns `Ok` of the
recorded trajectory. -/
def solve (pw : T → T → T) (cfg : AdaptiveStepper T) (prob : ExplicitODE T)
    (method : ExplicitAdaptiveMethod T) (fuel : Nat) :
    Option (Except String (List T × List (Vector T))) :=
  let t_start := prob.time_span.1
  let t_stop := prob.time_span.2
  if t_stop < t_start then none
  else
    let q : T := ((max method.order.1 method.order.2 : Nat) : T)
    let l : T := 1 / (q + 1)
    (loop pw cfg prob method t_stop l fuel
        ⟨t_start, prob.init_cond, cfg.h_0, 0, [t_start], [prob.init_cond]⟩).map
      (fun s => Except.ok (s.t_vec, s.res_vec))

end AdaptiveStepper

/-- Configuration of `DormandPrince54` (dormandprince54.rs lines 10-15). -/
structure DormandPrince54 (T : Type) where
  abs_tol : T
  h_0 : T
  n_max : Nat

namespace DormandPrince54

variable {T : Type} [LinearOrderedField T]

/-- `DormandPrince54::do_step` (dormandprince54.rs lines 114-168): the
seven-stage embedded Runge-Kutta tableau, returning the fourth- and
fifth-order estimates `(rkdp4, rkdp5)`.  The stage combinations follow the
source line by line, including the division by `1/5` in the `k_2` stage. -/
def do_step (prob : ExplicitODE T) (t_n : T) (x_n : Vector T) (h : T) :
    Vector T × Vector T :=
  let k_1 := (prob.func t_n x_n).scalarMul h
  let k_2 := (prob.func (t_n + h / (1 / 5 : T)) (x_n.add (k_1.scalarDiv (1 / 5 : T)))).scalarMul h
  let k_31 := x_n.add (k_1.scalarMul (3 / 40 : T))
  let k_32 := k_31.add (k_2.scalarMul (9 / 40 : T))
  let k_3 := (prob.func (t_n + h * (3 / 10 : T)) k_32).scalarMul h
  let k_41 := x_n.add (k_1.scalarMul (44 / 45 : T))
  let k_42 := k_41.vsub (k_2.scalarMul (56 / 15 : T))
  let k_43 := k_42.add (k_3.scalarMul (32 / 9 : T))
  let k_4 := (prob.func (t_n + h * (4 / 5 : T)) k_43).scalarMul h
  let k_51 := x_n.add (k_1.scalarMul (19372 / 6561 : T))
  let k_52 := k_51.vsub (k_2.scalarMul (25360 / 2187 : T))
  let k_53 := k_52.add (k_3.scalarMul (64448 / 6561 : T))
  let k_54 := k_53.vsub (k_4.scalarMul (212 / 729 : T))
  let k_5 := (prob.func (t_n + h * (8 / 9 : T)) k_54).scalarMul h
  let k_61 := x_n.add (k_1.scalarMul (9017 / 3168 : T))
  let k_62 := k_61.vsub (k_2.scalarMul (355 / 33 : T))
  let k_63 := k_62.add (k_3.scalarMul (46732 / 5247 : T))
  let k_64 := k_63.add (k_4.scalarMul (49 / 176 : T))
  let k_65 := k_64.vsub (k_5.scalarMul (5103 / 18656 : T))
  let k_6 := (prob.func (t_n + h) k_65).scalarMul h
  let k_71 := x_n.add (k_1.scalarMul (35 / 384 : T))
  let k_72 := k_71.add (k_3.scalarMul (500 / 1113 : T))
  let k_73 := k_72.add (k_4.scalarMul (125 / 192 : T))
  let k_74 := k_73.vsub (k_5.scalarMul (2187 / 6784 : T))
  let k_75 := k_74.add (k_6.scalarMul (11 / 84 : T))
  let k_7 := (prob.func (t_n + h) k_75).scalarMul h
  let rkdp4 := k_75
  let rkdp5_1 := x_n.add (k_1.scalarMul (5179 / 57600 : T))
  let rkdp5_2 := rkdp5_1.add (k_3.scalarMul (7571 / 16695 : T))
  let rkdp5_3 := rkdp5_2.add (k_4.scalarMul (393 / 640 : T))
  let rkdp5_4 := rkdp5_3.vsub (k_5.scalarMul (92097 / 339200 : T))
  let rkdp5_5 := rkdp5_4.add (k_6.scalarMul (187 / 2100 : T))
  let rkdp5 := rkdp5_5.add (k_7.scalarMul (1 / 40 : T))
  (rkdp4, rkdp5)

/-- `DormandPrince54::calc_error` (dormandprince54.rs lines 101-107): the
infinity norm of the difference — the maximal component of
`(y − y_hat).abs()` via `argmax`. -/
def calc_error (y y_hat : Vector T) : T :=
  let diff := (y.vsub y_hat).vabs
  diff.get diff.argmax

/-- `DormandPrince54::calc_step_size` (dormandprince54.rs lines 92-95):
`0.9 · h_n · (abs_tol / error_n)^(1/5)`. -/
def calc_step_size (pw : T → T → T) (cfg : DormandPrince54 T) (h_n error_n : T) : T :=
  (9 / 10 : T) * h_n * pw (cfg.abs_tol / error_n) (1 / 5)

/-- One iteration of the `while` loop of `DormandPrince54::solve`
(dormandprince54.rs lines 64-82): clip `h`, step, accept when
`error ≤ abs_tol`, and always rescale `h` through `calc_step_size`. -/
def step (pw : T → T → T) (cfg : DormandPrince54 T) (prob : ExplicitODE T)
    (t_stop : T) (s : OdeState T) : OdeState T :=
  let h1 := min s.h (t_stop - s.t_n)
  let xs := do_step prob s.t_n s.x_n h1
  let err := calc_error xs.1 xs.2
  let s1 : OdeState T :=
    if err ≤ cfg.abs_tol then
      ⟨s.t_n + h1, xs.1, h1, s.n + 1, s.t_vec ++ [s.t_n + h1], s.res_vec ++ [xs.1]⟩
    else { s with h := h1 }
  { s1 with h := calc_step_size pw cfg h1 err }

/-- The `while n < n_max && t_n < t_stop` loop of `DormandPrince54::solve`,
fuelled. -/
def loop (pw : T → T → T) (cfg : DormandPrince54 T) (prob : ExplicitODE T)
    (t_stop : T) : Nat → OdeState T → Option (OdeState T)
  | 0, s => if s.n < cfg.n_max ∧ s.t_n < t_stop then none else some s
  | fuel + 1, s =>
    if s.n < cfg.n_max ∧ s.t_n < t_stop then
      loop pw cfg prob t_stop fuel (step pw cfg prob t_stop s)
    else some s

/-- `DormandPrince54::solve` (dormandprince54.rs lines 41-89): panics
(`none`) when `t_start > t_stop`; after the loop, returns the error value
`"Maxmimum number of iterations reached"` (sic) when `t_n < t_stop`, and
`Ok` of the trajectory otherwise. -/
def solve (pw : T → T → T) (cfg : DormandPrince54 T) (prob : ExplicitODE T) (fuel : Nat) :
    Option (Except String (List T × List (Vector T))) :=
  let t_start := prob.time_span.1
  let t_stop := prob.time_span.2
  if t_stop < t_start then none
  else
    (loop pw cfg prob t_stop fuel
        ⟨t_start, prob.init_cond, cfg.h_0, 0, [t_start], [prob.init_cond]⟩).map
      (fun s =>
        if s.t_n < t_stop then Except.error "Maxmimum number of iterations reached"
        else Except.ok (s.t_vec, s.res_vec))

end DormandPrince54

/-- The `ImplicitODE` trait (implicit_ode.rs, whose file is absent from
src/; the interface is visible in implicit_euler.rs): derivative, time
span, initial condition and the analytic Jacobian contract. -/
structure ImplicitODE (T : Type) where
  func : T → Vector T → Vector T
  time_span : T × T
  init_cond : Vector T
  jacobian : T → Vector T → Matrix T

/-- `Function for ImplicitEulerHelper::eval` (implicit_euler.rs lines
174-188): the residual `g(z) = x + (f(t, z) * h) − z` handed to the root
finder; the helper is built with `t = t_n + h`. -/
def ieHelperEval {T : Type} [LinearOrderedField T] (prob : ImplicitODE T)
    (t : T) (x : Vector T) (h : T) (z : Vector T) : Vector T :=
  (x.add ((prob.func t z).scalarMul h)).vsub z

/-- `Jacobian for ImplicitEulerHelper::jacobian` (implicit_euler.rs lines
190-203): `jacobian(t, z) * h − I(m)` with `(m, _n) = z.dim()`. -/
def ieHelperJacobian {T : Type} [LinearOrderedField T] (prob : ImplicitODE T)
    (t h : T) (z : Vector T) : Matrix T :=
  ((prob.jacobian t z).scalarMul h).sub (Matrix.one (z.dim).1)

/-- The `NewtonRaphson` root finder configuration: a fixed maximum
iteration count and an absolute tolerance (its source file is absent from
src/; `ImplicitEuler::new` builds it as `NewtonRaphson::new(100, 1e-8)`). -/
structure NewtonRaphson (T : Type) where
  iters : Nat
  tol : T

/-- Infinity norm of a component list. -/
def infNormList {T : Type} [LinearOrderedField T] (xs : List T) : T :=
  (xs.map (fun x => |x|)).foldr max 0

/-- Modelled from the spec (§4.8, the NewtonRaphson source file is absent
from src/): one fuelled Newton iteration tower — update
`x ← x − J(x)⁻¹·g(x)` (the linear solve is the `linSolve` parameter),
return `Ok` as soon as the update is within the absolute tolerance, and
surface an error value when the fixed maximum count is exhausted. -/
def findRootAux {T : Type} [LinearOrderedField T]
    (linSolve : Matrix T → Vector T → Vector T) (f : Vector T → Vector T)
    (jac : Vector T → Matrix T) (tol : T) : Nat → Vector T → Except String (Vector T)
  | 0, _ => Except.error "Maximum number of iterations reached"
  | k + 1, x =>
    let d := linSolve (jac x) (f x)
    let x1 := x.vsub d
    if infNormList (x1.vsub x).toList ≤ tol then Except.ok x1
    else findRootAux linSolve f jac tol k x1

/-- Modelled from the spec (§4.8): `NewtonRaphson::find_root`, iterating a
fixed maximum count with an absolute tolerance; non-convergence surfaces
as an error value. -/
def NewtonRaphson.find_root {T : Type} [LinearOrderedField T] (nr : NewtonRaphson T)
    (linSolve : Matrix T → Vector T → Vector T) (f : Vector T → Vector T)
    (jac : Vector T → Matrix T) (x0 : Vector T) : Except String (Vector T) :=
  findRootAux linSolve f jac nr.tol nr.iters x0

/-- `ImplicitFixedStepSizeMethod::do_step for ImplicitEuler`
(implicit_euler.rs lines 131-139): builds the helper at `t = t_n + h` and
calls `find_root(..).unwrap()` — the `unwrap` is a panic channel, so a
root-finder error value becomes `none` here, not a propagated error. -/
def ieDoStep {T : Type} [LinearOrderedField T] (nr : NewtonRaphson T)
    (linSolve : Matrix T → Vector T → Vector T) (prob : ImplicitODE T)
    (t_n : T) (x_n : Vector T) (h : T) : Option (Vector T) :=
  let t := t_n + h
  match nr.find_root linSolve (ieHelperEval prob t x_n h) (ieHelperJacobian prob t h) x_n with
  | Except.ok x => some x
  | Except.error _ => none

section Lemmas

variable {T : Type} [LinearOrderedField T]

lemma getD_zipWith (f : T → T → T) :
    ∀ (as bs : List T) (i : Nat), i < as.length → i < bs.length →
      (List.zipWith f as bs).getD i 0 = f (as.getD i 0) (bs.getD i 0) := by
  intro as
  induction as with
  | nil => intro bs i h _; simp at h
  | cons a as ih =>
    intro bs i h1 h2
    cases bs with
    | nil => simp at h2
    | cons b bs =>
      cases i with
      | zero => simp
      | succ i =>
        simp only [List.zipWith_cons_cons, List.getD_cons_succ]
        exact ih bs i (by simpa using h1) (by simpa using h2)

lemma getD_map (f : T → T) :
    ∀ (as : List T) (i : Nat), i < as.length → (as.map f).getD i 0 = f (as.getD i 0) := by
  intro as
  induction as with
  | nil => intro i h; simp at h
  | cons a as ih =>
    intro i h
    cases i with
    | zero => simp
    | succ i => simpa using ih i (by simpa using h)

/-- On a column-shaped wrapper, `Vector::get` is plain list indexing. -/
lemma Vector.get_of_col (v : Vector T) (h : v.data.n = 1) (i : Nat) :
    v.get i = v.data.data.getD i 0 := by
  unfold Vector.get Matrix.get
  by_cases hm : v.data.m = 1 <;> simp [hm, h]

/-- On a row-shaped wrapper, `Vector::get` is plain list indexing. -/
lemma Vector.get_of_row (v : Vector T) (h : v.data.m = 1) (i : Nat) :
    v.get i = v.data.data.getD i 0 := by
  unfold Vector.get Matrix.get
  simp [h]

end Lemmas

/-- C1: when the time span is not fully covered within `n_max` accepted
steps (the loop stops at a state with `t_n < t_stop`),
`DormandPrince54::solve` returns the error value
`"Maxmimum number of iterations reached"`, while `AdaptiveStepper::solve`
returns no error: it returns the partial recorded trajectory as `Ok`. -/
theorem mathru_C1_nmax_policy {T : Type} [LinearOrderedField T] :
    (∀ (pw : T → T → T) (cfg : DormandPrince54 T) (prob : ExplicitODE T) (fuel : Nat)
        (s : OdeState T),
        prob.time_span.1 ≤ prob.time_span.2 →
        DormandPrince54.loop pw cfg prob prob.time_span.2 fuel
            ⟨prob.time_span.1, prob.init_cond, cfg.h_0, 0, [prob.time_span.1], [prob.init_cond]⟩
          = some s →
        s.t_n < prob.time_span.2 →
        DormandPrince54.solve pw cfg prob fuel
          = some (Except.error "Maxmimum number of iterations reached"))
    ∧ (∀ (pw : T → T → T) (cfg : AdaptiveStepper T) (prob : ExplicitODE T)
        (method : ExplicitAdaptiveMethod T) (fuel : Nat) (s : OdeState T),
        prob.time_span.1 ≤ prob.time_span.2 →
        AdaptiveStepper.loop pw cfg prob method prob.time_span.2
            (1 / (((max method.order.1 method.order.2 : Nat) : T) + 1)) fuel
            ⟨prob.time_span.1, prob.init_cond, cfg.h_0, 0, [prob.time_span.1], [prob.init_cond]⟩
          = some s →
        s.t_n < prob.time_span.2 →
        AdaptiveStepper.solve pw cfg prob method fuel = some (Except.ok (s.t_vec, s.res_vec))) := by
  constructor
  · intro pw cfg prob fuel s h1 hloop h2
    simp only [DormandPrince54.solve]
    rw [if_neg (not_lt.mpr h1), hloop]
    simp only [Option.map_some']
    rw [if_pos h2]
  · intro pw cfg prob method fuel s h1 hloop h2
    simp only [AdaptiveStepper.solve]
    rw [if_neg (not_lt.mpr h1), hloop]
    rfl

/-- Witness for C1: a Dormand-Prince solve with `n_max = 0` over the span
`(0, 1)` errors out, while an adaptive-stepper solve with `n_max = 1` over
`(0, 10)` stops after one accepted step and returns the partial trajectory
`[0, 1]` as `Ok`. -/
theorem mathru_C1_nmax_policy_witness :
    DormandPrince54.solve (fun _ _ => (1 : ℚ)) ⟨1, 1 / 10, 0⟩
        ⟨fun _ _ => Vector.new_column [0], (0, 1), Vector.new_column [0]⟩ 5
      = some (Except.error "Maxmimum number of iterations reached")
    ∧ AdaptiveStepper.solve (fun _ _ => (1 : ℚ)) ⟨1, 1, 1, 1 / 2, 2, 1, 0⟩
        ⟨fun _ _ => Vector.new_column [0], (0, 10), Vector.new_column [0]⟩
        ⟨fun _ _ x _ => (x, x), (4, 5)⟩ 5
      = some (Except.ok ([0, 1],
          [Vector.new_column [0], Vector.new_column [0]])) := by
  constructor
  · exact mathru_C1_nmax_policy.1 (fun _ _ => (1 : ℚ)) ⟨1, 1 / 10, 0⟩
      ⟨fun _ _ => Vector.new_column [0], (0, 1), Vector.new_column [0]⟩ 5
      ⟨0, Vector.new_column [0], 1 / 10, 0, [0], [Vector.new_column [0]]⟩
      (by norm_num) (by with_unfolding_all decide) (by norm_num)
  · exact mathru_C1_nmax_policy.2 (fun _ _ => (1 : ℚ)) ⟨1, 1, 1, 1 / 2, 2, 1, 0⟩
      ⟨fun _ _ => Vector.new_column [0], (0, 10), Vector.new_column [0]⟩
      ⟨fun _ _ x _ => (x, x), (4, 5)⟩ 5
      ⟨1, Vector.new_column [0], 1, 1, [0, 1], [Vector.new_column [0], Vector.new_column [0]]⟩
      (by norm_num) (by with_unfolding_all decide) (by norm_num)

deriving instance DecidableEq for Except

/-- C2 counterexample: for the square matrix `[[-1]]` the intermediate
diagonal term `A[0,0] − 0 = −1` is non-positive, yet the portable path of
`dec_cholesky` does not return the `None` outcome (it returns
`Some(CholeskyDec ..)` built from `pow(-1, 0.5)`). -/
theorem mathru_C2_cholesky_cex :
    Matrix.dec_cholesky (fun x _ => x) (⟨1, 1, [(-1 : ℚ)]⟩ : Matrix ℚ) ≠ some none
    ∧ Matrix.dec_cholesky (fun x _ => x) (⟨1, 1, [(-1 : ℚ)]⟩ : Matrix ℚ)
        = some (some ⟨⟨1, 1, [-1]⟩⟩)
    ∧ (⟨1, 1, [(-1 : ℚ)]⟩ : Matrix ℚ).get 0 0 - 0 ≤ 0 := by
  refine ⟨?_, ?_, ?_⟩ <;> with_unfolding_all decide

/-- C2 amended: the portable (`native` feature) path of `dec_cholesky`
returns `Some` for every square matrix — `pow(·, 0.5)` is applied to the
diagonal terms unconditionally and no non-positivity check exists — while
the `blaslapack` path of `dec_cholesky_r` returns `None` exactly when the
status code reported by the underlying `xpotrf` routine is negative. -/
theorem mathru_C2_cholesky_outcomes {T : Type} [LinearOrderedField T] :
    (∀ (pw : T → T → T) (A : Matrix T), A.m = A.n →
        Matrix.dec_cholesky pw A = some (some ⟨Matrix.choleskyLoop pw A⟩))
    ∧ (∀ (xpotrf : Char → Int → List T → List T × Int) (A : Matrix T),
        ((xpotrf 'L' (A.n : Int) A.data).2 < 0 →
          Matrix.dec_cholesky_r_lapack xpotrf A = none)
        ∧ (0 ≤ (xpotrf 'L' (A.n : Int) A.data).2 →
          Matrix.dec_cholesky_r_lapack xpotrf A
            = some ⟨Matrix.zeroUpper ⟨A.n, A.n, (xpotrf 'L' (A.n : Int) A.data).1⟩⟩)) := by
  constructor
  · intro pw A h
    simp only [Matrix.dec_cholesky, Matrix.dec_cholesky_r]
    rw [if_pos h]
  · intro xpotrf A
    constructor
    · intro h
      simp only [Matrix.dec_cholesky_r_lapack]
      rw [if_pos h]
    · intro h
      simp only [Matrix.dec_cholesky_r_lapack]
      rw [if_neg (not_lt.mpr h)]

/-- Witness for the amended C2: the portable path yields `Some` on a
concrete 2×2 matrix, and a routine reporting `info = -1` (resp. `info = 1`,
the not-positive-definite code) makes the `blaslapack` wrapper yield
`None` (resp. `Some`). -/
theorem mathru_C2_cholesky_outcomes_witness :
    Matrix.dec_cholesky (fun x _ => x) (⟨2, 2, [(4 : ℚ), 0, 0, 4]⟩ : Matrix ℚ)
      = some (some ⟨Matrix.choleskyLoop (fun x _ => x) ⟨2, 2, [4, 0, 0, 4]⟩⟩)
    ∧ Matrix.dec_cholesky_r_lapack (fun _ _ d => (d, -1)) (⟨1, 1, [(9 : ℚ)]⟩ : Matrix ℚ) = none
    ∧ Matrix.dec_cholesky_r_lapack (fun _ _ d => (d, 1)) (⟨1, 1, [(9 : ℚ)]⟩ : Matrix ℚ)
      = some ⟨Matrix.zeroUpper ⟨1, 1, [9]⟩⟩ := by
  refine ⟨?_, ?_, ?_⟩
  · exact mathru_C2_cholesky_outcomes.1 (fun x _ => x) ⟨2, 2, [4, 0, 0, 4]⟩ rfl
  · exact (mathru_C2_cholesky_outcomes.2 (fun _ _ d => (d, -1)) ⟨1, 1, [(9 : ℚ)]⟩).1 (by decide)
  · exact (mathru_C2_cholesky_outcomes.2 (fun _ _ d => (d, 1)) ⟨1, 1, [(9 : ℚ)]⟩).2 (by decide)

/-- C8: each dimension precondition is a panic (the `none` channel of the
entry point), not a returned `None`/`Err` value: `dec_hessenberg` panics
on non-square or empty input, `dec_cholesky` panics on non-square input
(its legitimate `None` outcome is the inner option, which a panic never
reaches), and `dec_qr` panics when `rows < cols`. -/
theorem mathru_C8_dim_preconditions {T : Type} [LinearOrderedField T] :
    (∀ (pw : T → T → T) (A : Matrix T), A.m ≠ A.n ∨ A.m = 0 →
        Matrix.dec_hessenberg pw A = none)
    ∧ (∀ (pw : T → T → T) (A : Matrix T), A.m ≠ A.n → Matrix.dec_cholesky pw A = none)
    ∧ (∀ (lp : LapackQr T) (A : Matrix T), A.m < A.n → Matrix.dec_qr lp A = none) := by
  refine ⟨?_, ?_, ?_⟩
  · intro pw A h
    simp only [Matrix.dec_hessenberg]
    rcases h with h | h
    · rw [if_pos h]
    · by_cases hm : A.m = A.n
      · rw [if_neg (by simpa using hm), if_pos h]
      · rw [if_pos hm]
  · intro pw A h
    simp only [Matrix.dec_cholesky]
    rw [if_neg h]
  · intro lp A h
    simp only [Matrix.dec_qr]
    rw [if_pos h]

/-- Witness for C8: concrete violations — a 1×2 matrix for Hessenberg and
Cholesky, the empty 0×0 matrix for Hessenberg, and a 1×2 matrix (fewer
rows than columns) for QR — all panic. -/
theorem mathru_C8_dim_preconditions_witness :
    Matrix.dec_hessenberg (fun x _ => x) (⟨1, 2, [(0 : ℚ), 0]⟩ : Matrix ℚ) = none
    ∧ Matrix.dec_hessenberg (fun x _ => x) (⟨0, 0, []⟩ : Matrix ℚ) = none
    ∧ Matrix.dec_cholesky (fun x _ => x) (⟨1, 2, [(0 : ℚ), 0]⟩ : Matrix ℚ) = none
    ∧ Matrix.dec_qr
        ⟨fun _ _ _ => (0, 0), fun _ _ d => (d, [], 0), fun _ _ _ _ _ => (0, 0),
          fun _ _ _ d _ => (d, 0)⟩ (⟨1, 2, [(0 : ℚ), 0]⟩ : Matrix ℚ) = none := by
  refine ⟨?_, ?_, ?_, ?_⟩
  · exact mathru_C8_dim_preconditions.1 (fun x _ => x) ⟨1, 2, [(0 : ℚ), 0]⟩ (Or.inl (by decide))
  · exact mathru_C8_dim_preconditions.1 (fun x _ => x) ⟨0, 0, []⟩ (Or.inr rfl)
  · exact mathru_C8_dim_preconditions.2.1 (fun x _ => x) ⟨1, 2, [(0 : ℚ), 0]⟩ (by decide)
  · exact mathru_C8_dim_preconditions.2.2 _ ⟨1, 2, [(0 : ℚ), 0]⟩ (by decide)

/-- C4: `Solve<Vector> for LUDec` applies the permutation `p` to the
right-hand side, substitutes forward through `l`, then backward through
`u`, and wraps the result in `Ok`; it never returns an `Err` value (in
particular not for a decomposition of a nonsingular matrix). -/
theorem mathru_C4_ludec_solve {T : Type} [LinearOrderedField T] :
    ∀ (dec : LUDec T) (rhs : Vector T) (r : Except Unit (Vector T)),
      dec.solve rhs = some r →
      (∃ b_hat, dec.p.vecMul rhs = some b_hat
        ∧ r = Except.ok (dec.u.substitute_backward (dec.l.substitute_forward b_hat)))
      ∧ ∀ e, r ≠ Except.error e := by
  intro dec rhs r h
  simp only [LUDec.solve] at h
  cases hp : dec.p.vecMul rhs with
  | none => rw [hp] at h; simp at h
  | some b_hat =>
    rw [hp] at h
    simp only [Option.map_some', Option.some.injEq] at h
    subst h
    exact ⟨⟨b_hat, rfl, rfl⟩, fun e he => by cases he⟩

/-- Witness for C4: solving a concrete 1×1 system through `LUDec::solve`
returns `Ok` of the substitution result and is not an `Err`. -/
theorem mathru_C4_ludec_solve_witness :
    LUDec.solve (⟨⟨1, 1, [(1 : ℚ)]⟩, ⟨1, 1, [1]⟩, ⟨1, 1, [1]⟩⟩ : LUDec ℚ)
        (Vector.new_column [2]) = some (Except.ok (Vector.new_column [2]))
    ∧ (Except.ok (Vector.new_column [2]) : Except Unit (Vector ℚ)) ≠ Except.error () := by
  constructor
  · with_unfolding_all decide
  · exact (mathru_C4_ludec_solve (⟨⟨1, 1, [(1 : ℚ)]⟩, ⟨1, 1, [1]⟩, ⟨1, 1, [1]⟩⟩ : LUDec ℚ)
      (Vector.new_column [2]) (Except.ok (Vector.new_column [2]))
      (by with_unfolding_all decide)).2 ()

/-- C3 amended: when the embedded Newton-Raphson root finder of an
implicit-Euler step fails to converge, its error result is not propagated:
`ImplicitEuler::do_step` unwraps the `find_root` result, so the step
panics (`none`) exactly when the root finder returns an error value on the
step's residual and Jacobian. -/
theorem mathru_C3_ie_rootfinder_unwrap {T : Type} [LinearOrderedField T] :
    ∀ (nr : NewtonRaphson T) (linSolve : Matrix T → Vector T → Vector T)
      (prob : ImplicitODE T) (t_n : T) (x_n : Vector T) (h : T),
      ieDoStep nr linSolve prob t_n x_n h = none
        ↔ ∃ e, nr.find_root linSolve (ieHelperEval prob (t_n + h) x_n h)
            (ieHelperJacobian prob (t_n + h) h) x_n = Except.error e := by
  intro nr linSolve prob t_n x_n h
  simp only [ieDoStep]
  cases hfr : nr.find_root linSolve (ieHelperEval prob (t_n + h) x_n h)
      (ieHelperJacobian prob (t_n + h) h) x_n with
  | ok x => simp
  | error e => simp

/-- A 1-dimensional implicit ODE problem on which the implicit-Euler
Newton iteration with `h = 1` from `x = 0` cycles between `0` and `1`
forever: the residual is the classic cubic `z³ − 2z + 2`. -/
def cubicCycleProblem : ImplicitODE ℚ :=
  ⟨fun _ z => Vector.new_column [z.get 0 * z.get 0 * z.get 0 - z.get 0 + 2], (0, 2),
    Vector.new_column [0], fun _ z => ⟨1, 1, [3 * (z.get 0 * z.get 0) - 1]⟩⟩

/-- The 1×1 linear solve used to drive the Newton update on
one-dimensional problems. -/
def oneDimSolve : Matrix ℚ → Vector ℚ → Vector ℚ :=
  fun J g => Vector.new_column [g.get 0 / J.get 0 0]

/-- C3 counterexample: on `cubicCycleProblem` the root finder exhausts its
100 iterations and returns an error value, and `ImplicitEuler::do_step`
panics (`none`) instead of propagating that error to the caller of
`ImplicitEuler::solve`. -/
theorem mathru_C3_ie_rootfinder_cex :
    NewtonRaphson.find_root ⟨100, 1 / 100000000⟩ oneDimSolve
        (ieHelperEval cubicCycleProblem (0 + 1) (Vector.new_column [0]) 1)
        (ieHelperJacobian cubicCycleProblem (0 + 1) 1) (Vector.new_column [0])
      = Except.error "Maximum number of iterations reached"
    ∧ ieDoStep ⟨100, 1 / 100000000⟩ oneDimSolve cubicCycleProblem 0
        (Vector.new_column [0]) 1 = none := by
  constructor <;> with_unfolding_all decide

/-- Witness for the amended C3: the equivalence applied to the concrete
cycling problem — the root finder's error value makes the step panic. -/
theorem mathru_C3_ie_rootfinder_unwrap_witness :
    ieDoStep (⟨100, 1 / 100000000⟩ : NewtonRaphson ℚ) oneDimSolve cubicCycleProblem 0
      (Vector.new_column [0]) 1 = none :=
  (mathru_C3_ie_rootfinder_unwrap ⟨100, 1 / 100000000⟩ oneDimSolve cubicCycleProblem 0
      (Vector.new_column [0]) 1).mpr
    ⟨"Maximum number of iterations reached", by with_unfolding_all decide⟩

section EntryLemmas

variable {T : Type} [LinearOrderedField T]

lemma flatten_getD (m : Nat) :
    ∀ (Ls : List (List T)) (i j : Nat), (∀ l ∈ Ls, l.length = m) → i < m → j < Ls.length →
      Ls.flatten.getD (j * m + i) 0 = (Ls.getD j []).getD i 0 := by
  intro Ls
  induction Ls with
  | nil => intro i j _ _ hj; simp at hj
  | cons l Ls ih =>
    intro i j hlen hi hj
    have hl : l.length = m := hlen l (List.mem_cons_self l Ls)
    cases j with
    | zero =>
      simp only [Nat.zero_mul, Nat.zero_add, List.flatten_cons, List.getD_cons_zero]
      exact List.getD_append l Ls.flatten 0 i (by rw [hl]; exact hi)
    | succ j =>
      have hidx : (j + 1) * m + i = l.length + (j * m + i) := by
        rw [hl]; ring
      simp only [List.flatten_cons, List.getD_cons_succ, hidx]
      rw [List.getD_append_right l Ls.flatten 0 _ (Nat.le_add_right _ _),
        Nat.add_sub_cancel_left]
      exact ih i j (fun a ha => hlen a (List.mem_cons_of_mem l ha)) hi (by simpa using hj)

/-- Entry access on `ofFn` matrices recovers the entry function inside the
bounds. -/
lemma Matrix.ofFn_get (m n : Nat) (f : Nat → Nat → T) (i j : Nat)
    (hi : i < m) (hj : j < n) : (Matrix.ofFn m n f).get i j = f i j := by
  show ((List.range n).map (fun j => (List.range m).map (fun i => f i j))).flatten.getD
      (j * m + i) 0 = f i j
  rw [flatten_getD m _ i j]
  · have hrow : ((List.range n).map (fun j => (List.range m).map (fun i => f i j))).getD j []
        = (List.range m).map (fun i => f i j) := by
      rw [List.getD_eq_getElem _ _ (by simpa using hj)]
      simp
    rw [hrow, List.getD_eq_getElem _ _ (by simpa using hi)]
    simp
  · intro l hl
    obtain ⟨a, _, rfl⟩ := List.mem_map.mp hl
    simp
  · exact hi
  · simpa using hj

end EntryLemmas

/-- The buffer of an `ofFn` matrix has the expected length. -/
lemma Matrix.ofFn_data_length {T : Type} (m n : Nat) (f : Nat → Nat → T) :
    (@Matrix.ofFn T m n f).data.length = m * n := by
  show (((List.range n).map fun j => (List.range m).map fun i => f i j)).flatten.length = m * n
  rw [List.length_flatten]
  simp [List.map_map, Function.comp_def, Nat.mul_comm]

/-- C9: the residual object handed to the Newton-Raphson root finder by an
implicit-Euler step from `(t_n, x_n)` with step size `h` evaluates, at
`t_{n+1} = t_n + h` and componentwise, to
`g(z)_i = x_n_i + h·f(t_{n+1}, z)_i − z_i`, and its Jacobian entry `(i,j)`
is `h·(∂f/∂z)(t_{n+1}, z)_{i,j} − I_{i,j}`, where `∂f/∂z` is the ODE
problem's `jacobian` contract. -/
theorem mathru_C9_ie_residual {T : Type} [LinearOrderedField T] :
    ∀ (prob : ImplicitODE T) (t_n h : T) (x_n z : Vector T) (L : Nat),
      x_n.data.n = 1 → x_n.data.data.length = L →
      z.data.m = L → z.data.n = 1 → z.data.data.length = L →
      (prob.func (t_n + h) z).data.n = 1 →
      (prob.func (t_n + h) z).data.data.length = L →
      (prob.jacobian (t_n + h) z).m = L → (prob.jacobian (t_n + h) z).data.length = L * L →
      (∀ i, i < L →
        (ieHelperEval prob (t_n + h) x_n h z).get i
          = x_n.get i + h * (prob.func (t_n + h) z).get i - z.get i)
      ∧ (∀ i j, i < L → j < L →
        (ieHelperJacobian prob (t_n + h) h z).get i j
          = h * (prob.jacobian (t_n + h) z).get i j - (if i = j then 1 else 0)) := by
  intro prob t_n h x_n z L hxn hxl hzm hzn hzl hfn hfl hjm hjl
  constructor
  · intro i hi
    have hres : (ieHelperEval prob (t_n + h) x_n h z).data.n = 1 := hxn
    rw [Vector.get_of_col _ hres]
    show (List.zipWith (fun a b => a - b)
        (List.zipWith (fun a b => a + b) x_n.data.data
          ((prob.func (t_n + h) z).data.data.map (fun x => x * h)))
        z.data.data).getD i 0 = _
    rw [getD_zipWith _ _ _ i (by simp [hxl, hfl, hi]) (by rw [hzl]; exact hi)]
    rw [getD_zipWith _ _ _ i (by rw [hxl]; exact hi) (by simp [hfl, hi])]
    rw [getD_map _ _ i (by rw [hfl]; exact hi)]
    rw [Vector.get_of_col x_n hxn, Vector.get_of_col z hzn,
      Vector.get_of_col _ hfn]
    ring
  · intro i j hi hj
    have hidx : j * L + i < L * L := by
      calc j * L + i < j * L + L := Nat.add_lt_add_left hi _
      _ = (j + 1) * L := by ring
      _ ≤ L * L := Nat.mul_le_mul_right L hj
    show (List.zipWith (fun a b => a - b)
        ((prob.jacobian (t_n + h) z).data.map (fun x => x * h))
        (Matrix.one (z.dim).1).data).getD
          (j * ((prob.jacobian (t_n + h) z).m) + i) 0 = _
    have hone : ((Matrix.one (z.dim).1 : Matrix T)).data.length = L * L := by
      show ((Matrix.ofFn (z.dim).1 (z.dim).1 _ : Matrix T)).data.length = L * L
      rw [Matrix.ofFn_data_length]
      simp [Vector.dim, Matrix.dim, hzm]
    rw [hjm]
    rw [getD_zipWith _ _ _ _ (by simpa [hjl] using hidx) (by rw [hone]; exact hidx)]
    rw [getD_map _ _ _ (by rw [hjl]; exact hidx)]
    have hone_entry : ((Matrix.one (z.dim).1 : Matrix T)).data.getD (j * L + i) 0
        = (if i = j then 1 else 0 : T) := by
      have hm1 : (z.dim).1 = L := by simpa [Vector.dim, Matrix.dim] using hzm
      have := Matrix.ofFn_get (T := T) L L (fun i j => if i = j then 1 else 0) i j hi hj
      simp only [Matrix.one, hm1]
      simpa [Matrix.get] using this
    rw [hone_entry]
    have hJ : (prob.jacobian (t_n + h) z).get i j
        = (prob.jacobian (t_n + h) z).data.getD (j * L + i) 0 := by
      simp [Matrix.get, hjm]
    rw [hJ]
    ring

/-- Witness for C9: the residual and Jacobian formulas evaluated on a
concrete two-dimensional problem at `i = 1`, `j = 0`. -/
theorem mathru_C9_ie_residual_witness :
    (ieHelperEval ⟨fun _ z => Vector.new_column [z.get 0 + z.get 1, z.get 1], (0, 1),
          Vector.new_column [1, 2], fun _ _ => ⟨2, 2, [1, 0, 1, 1]⟩⟩ ((0 : ℚ) + 2)
        (Vector.new_column [1, 2]) 2 (Vector.new_column [3, 4])).get 1
      = (Vector.new_column [(1 : ℚ), 2]).get 1
        + 2 * ((⟨fun _ z => Vector.new_column [z.get 0 + z.get 1, z.get 1], (0, 1),
            Vector.new_column [1, 2], fun _ _ => ⟨2, 2, [1, 0, 1, 1]⟩⟩ :
              ImplicitODE ℚ).func ((0 : ℚ) + 2) (Vector.new_column [3, 4])).get 1
        - (Vector.new_column [(3 : ℚ), 4]).get 1 :=
  (mathru_C9_ie_residual
      ⟨fun _ z => Vector.new_column [z.get 0 + z.get 1, z.get 1], (0, 1),
        Vector.new_column [1, 2], fun _ _ => ⟨2, 2, [1, 0, 1, 1]⟩⟩ 0 2
      (Vector.new_column [1, 2]) (Vector.new_column [3, 4]) 2
      rfl rfl rfl rfl rfl rfl rfl rfl rfl).1 1 (by decide)

/-- The sequential clamp of adaptive_stepper.rs (raise to `fac_min`, then
cap at `fac_max`) equals the mathematical clamp `min hi (max lo x)`. -/
lemma seq_clamp_eq {T : Type} [LinearOrderedField T] (lo hi x : T) :
    (if hi < (if x < lo then lo else x) then hi else (if x < lo then lo else x))
      = min hi (max lo x) := by
  simp only [min_def, max_def]
  split_ifs <;> first | rfl | linarith

/-- C6 amended: in every iteration of the adaptive-step loop the step is
accepted — `t_n` advanced by the clipped step, `x_n` replaced by the new
estimate, the pair recorded, `n` incremented — exactly when the computed
error is at most `1`; on rejection those fields are unchanged.  Whenever
the error is nonzero, the step size is rescaled to
`clamp(fac·(1/error)^l, fac_min, fac_max) · h_clipped`; when the error is
zero, the step size is left at its clipped value. -/
theorem mathru_C6_accept_rescale {T : Type} [LinearOrderedField T] :
    ∀ (pw : T → T → T) (cfg : AdaptiveStepper T) (prob : ExplicitODE T)
      (method : ExplicitAdaptiveMethod T) (t_stop l : T) (s : OdeState T)
      (h1 : T) (xs : Vector T × Vector T) (err : T),
      h1 = min s.h (t_stop - s.t_n) →
      xs = method.do_step prob s.t_n s.x_n h1 →
      err = AdaptiveStepper.calc_error pw cfg xs.1 xs.2 →
      (((AdaptiveStepper.step pw cfg prob method t_stop l s).n = s.n + 1 ↔ err ≤ 1)
        ∧ (err ≤ 1 →
            (AdaptiveStepper.step pw cfg prob method t_stop l s).t_n = s.t_n + h1
            ∧ (AdaptiveStepper.step pw cfg prob method t_stop l s).x_n = xs.1
            ∧ (AdaptiveStepper.step pw cfg prob method t_stop l s).t_vec
                = s.t_vec ++ [s.t_n + h1]
            ∧ (AdaptiveStepper.step pw cfg prob method t_stop l s).res_vec
                = s.res_vec ++ [xs.1])
        ∧ (¬ err ≤ 1 →
            (AdaptiveStepper.step pw cfg prob method t_stop l s).t_n = s.t_n
            ∧ (AdaptiveStepper.step pw cfg prob method t_stop l s).x_n = s.x_n
            ∧ (AdaptiveStepper.step pw cfg prob method t_stop l s).t_vec = s.t_vec
            ∧ (AdaptiveStepper.step pw cfg prob method t_stop l s).res_vec = s.res_vec)
        ∧ (err ≠ 0 →
            (AdaptiveStepper.step pw cfg prob method t_stop l s).h
              = min cfg.fac_max (max cfg.fac_min (cfg.fac * pw (1 / err) l)) * h1)
        ∧ (err = 0 → (AdaptiveStepper.step pw cfg prob method t_stop l s).h = h1)) := by
  intro pw cfg prob method t_stop l s h1 xs err hh1 hxs herr
  subst hh1; subst hxs; subst herr
  unfold AdaptiveStepper.step
  simp only [ne_eq]
  set E := AdaptiveStepper.calc_error pw cfg
    (method.do_step prob s.t_n s.x_n (min s.h (t_stop - s.t_n))).1
    (method.do_step prob s.t_n s.x_n (min s.h (t_stop - s.t_n))).2 with hE
  by_cases hacc : E ≤ 1
  · by_cases hz : E = 0
    · rw [if_pos hacc, if_neg (not_not_intro hz)]
      exact ⟨by simp [hacc], fun _ => ⟨rfl, rfl, rfl, rfl⟩, fun h => absurd hacc h,
        fun h => absurd hz h, fun _ => rfl⟩
    · rw [if_pos hacc, if_pos hz]
      refine ⟨by simp [hacc], fun _ => ⟨rfl, rfl, rfl, rfl⟩, fun h => absurd hacc h,
        fun _ => ?_, fun h => absurd h hz⟩
      show (if cfg.fac_max < (if cfg.fac * pw (1 / E) l < cfg.fac_min then cfg.fac_min
          else cfg.fac * pw (1 / E) l) then cfg.fac_max
        else (if cfg.fac * pw (1 / E) l < cfg.fac_min then cfg.fac_min
          else cfg.fac * pw (1 / E) l)) * min s.h (t_stop - s.t_n) = _
      rw [seq_clamp_eq]
  · by_cases hz : E = 0
    · rw [if_neg hacc, if_neg (not_not_intro hz)]
      exact ⟨by simp [hacc, Nat.succ_ne_self], fun h => absurd h hacc,
        fun _ => ⟨rfl, rfl, rfl, rfl⟩, fun h => absurd hz h, fun _ => rfl⟩
    · rw [if_neg hacc, if_pos hz]
      refine ⟨by simp [hacc, Nat.succ_ne_self], fun h => absurd h hacc,
        fun _ => ⟨rfl, rfl, rfl, rfl⟩, fun _ => ?_, fun h => absurd h hz⟩
      show (if cfg.fac_max < (if cfg.fac * pw (1 / E) l < cfg.fac_min then cfg.fac_min
          else cfg.fac * pw (1 / E) l) then cfg.fac_max
        else (if cfg.fac * pw (1 / E) l < cfg.fac_min then cfg.fac_min
          else cfg.fac * pw (1 / E) l)) * min s.h (t_stop - s.t_n) = _
      rw [seq_clamp_eq]

/-- C6 counterexample: an iteration whose two estimates coincide has error
`0`; the step is accepted and the code leaves `h` at its clipped value `1`,
while the claimed unconditional rescale by the clamped factor — evaluated
with the code's own `pow` on `1/0` — would give `1/2 ≠ 1`. -/
theorem mathru_C6_accept_rescale_cex :
    AdaptiveStepper.calc_error (fun (x : ℚ) _ => x) (⟨10, 1, 1, 1 / 2, 2, 1, 0⟩ : AdaptiveStepper ℚ)
        (Vector.new_column [0]) (Vector.new_column [0]) = 0
    ∧ (AdaptiveStepper.step (fun (x : ℚ) _ => x) ⟨10, 1, 1, 1 / 2, 2, 1, 0⟩
        ⟨fun _ x => x, (0, 10), Vector.new_column [0]⟩ ⟨fun _ _ x _ => (x, x), (4, 5)⟩
        10 (1 / 5) ⟨0, Vector.new_column [0], 1, 0, [0], [Vector.new_column [0]]⟩).h = 1
    ∧ min (2 : ℚ) (max (1 / 2) (1 * ((fun (x : ℚ) (_ : ℚ) => x) (1 / 0) (1 / 5))))
        * min (1 : ℚ) (10 - 0) = 1 / 2
    ∧ (1 : ℚ) ≠ 1 / 2 := by
  refine ⟨?_, ?_, ?_, ?_⟩ <;> with_unfolding_all decide

/-- Witness for the amended C6: a step with error exactly `1` is accepted
(the counter is incremented). -/
theorem mathru_C6_accept_rescale_witness :
    (AdaptiveStepper.step (fun _ _ => (1 : ℚ)) ⟨10, 1, 1, 1 / 2, 2, 1, 0⟩
        ⟨fun _ x => x, (0, 10), Vector.new_column [0]⟩ ⟨fun _ _ x _ => (x, x), (4, 5)⟩
        10 (1 / 5) ⟨0, Vector.new_column [0], 1, 0, [0], [Vector.new_column [0]]⟩).n
      = 0 + 1 := by
  refine ((mathru_C6_accept_rescale _ _ _ _ _ _ _ _ _ _ rfl rfl rfl).1).mpr ?_
  with_unfolding_all decide

/-- Following the spec (§4.7): the mean over components of the squared
scaled differences `((y_i − ŷ_i) / (abs_tol + rel_tol·max(|y_i|,|ŷ_i|)))²`
— the quantity whose square root the spec's error norm is. -/
def specMeanSqError {T : Type} [LinearOrderedField T] (abs_tol rel_tol : T)
    (ys y_hats : List T) : T :=
  (List.zipWith (fun a b =>
    ((a - b) / (abs_tol + rel_tol * max |a| |b|))
      * ((a - b) / (abs_tol + rel_tol * max |a| |b|))) ys y_hats).sum / (ys.length : T)

/-- Following the spec's alternative (§4.7 describes one error norm for
every variant): the infinity norm `max_i |y_i − ŷ_i|` of the difference. -/
def specInfNormDiff {T : Type} [LinearOrderedField T] (ys y_hats : List T) : T :=
  (List.zipWith (fun a b => |a - b|) ys y_hats).foldr max 0

section SumLemmas

variable {T : Type} [LinearOrderedField T]

lemma range_sum_zipWith (g : T → T → T) :
    ∀ (as bs : List T), as.length = bs.length →
      ((List.range as.length).map (fun i => g (as.getD i 0) (bs.getD i 0))).sum
        = (List.zipWith g as bs).sum := by
  intro as
  induction as with
  | nil => intro bs _; simp
  | cons a as ih =>
    intro bs hlen
    cases bs with
    | nil => simp at hlen
    | cons b bs =>
      have hlen' : as.length = bs.length := by simpa using hlen
      simp only [List.length_cons, List.range_succ_eq_map, List.map_cons, List.map_map,
        List.sum_cons, List.zipWith_cons_cons]
      rw [← ih bs hlen']
      simp [Function.comp_def]

lemma foldr_max_base_swap (a b : T) (h : b ≤ a) :
    ∀ ys : List T, ys.foldr max a = max a (ys.foldr max b) := by
  intro ys
  induction ys with
  | nil => simp [max_eq_left h]
  | cons y t iht =>
    simp only [List.foldr_cons, iht]
    rw [max_left_comm]

lemma le_foldr_max (b : T) : ∀ ys : List T, b ≤ ys.foldr max b := by
  intro ys
  induction ys with
  | nil => simp
  | cons y t iht => exact le_trans iht (le_max_right y _)

lemma argmaxAux_getD :
    ∀ (ys pre : List T) (best : Nat) (bv : T),
      pre.getD best 0 = bv → best < pre.length →
      (pre ++ ys).getD (argmaxAux ys pre.length best bv) 0 = ys.foldr max bv := by
  intro ys
  induction ys with
  | nil =>
    intro pre best bv hbv hb
    simpa [argmaxAux, List.getD_append pre [] 0 best hb] using hbv
  | cons x ys ih =>
    intro pre best bv hbv hb
    have hsplit : pre ++ x :: ys = (pre ++ [x]) ++ ys := by simp
    have hlen : (pre ++ [x]).length = pre.length + 1 := by simp
    simp only [argmaxAux]
    by_cases hlt : bv < x
    · rw [if_pos hlt, hsplit]
      have hx : (pre ++ [x]).getD pre.length 0 = x := by
        rw [List.getD_append_right pre [x] 0 pre.length le_rfl]
        simp
      have := ih (pre ++ [x]) pre.length x hx (by simp)
      rw [hlen] at this
      rw [this, List.foldr_cons, foldr_max_base_swap x bv (le_of_lt hlt) ys]
    · rw [if_neg hlt, hsplit]
      have hbv' : (pre ++ [x]).getD best 0 = bv := by
        rw [List.getD_append pre [x] 0 best hb]; exact hbv
      have := ih (pre ++ [x]) best bv hbv' (by simp; omega)
      rw [hlen] at this
      rw [this, List.foldr_cons, max_eq_right (le_trans (not_lt.mp hlt) (le_foldr_max bv ys))]

/-- The component at `argmax` is the fold-max of the list, for a nonempty
list with a nonnegative head. -/
lemma getD_argmaxList (x : T) (xs : List T) (hx : 0 ≤ x) :
    (x :: xs).getD (argmaxList (x :: xs)) 0 = (x :: xs).foldr max 0 := by
  have h := argmaxAux_getD xs [x] 0 x (by simp) (by simp)
  simp only [List.singleton_append, List.length_singleton] at h
  rw [show argmaxList (x :: xs) = argmaxAux xs 1 0 x from rfl, h, List.foldr_cons,
    foldr_max_base_swap x 0 hx xs]

end SumLemmas

/-- The dimension of a freshly built column vector. -/
lemma Vector.new_column_dim {T : Type} [LinearOrderedField T] (xs : List T) :
    (Vector.new_column xs).dim = (xs.length, 1) := rfl

/-- Component access on a freshly built column vector is list indexing. -/
lemma Vector.get_new_column {T : Type} [LinearOrderedField T] (xs : List T) (i : Nat) :
    (Vector.new_column xs).get i = xs.getD i 0 :=
  Vector.get_of_col (Vector.new_column xs) rfl i

/-- C7 amended: `AdaptiveStepper::calc_error` sums the squared scaled
differences over `i in 0..n` with `n = y.dim().1` — for row-vector
estimates (`1 × n`) this is the spec's full mean-over-components norm,
but for column state estimates (`n × 1`, the orientation embedded steps
produce) `n = 1`, so only the first component enters: the result is the
spec formula applied to the first components alone.  And
`DormandPrince54::calc_error` computes the infinity norm
`max_i |y_i − ŷ_i|` of the plain difference in either orientation, never
the claimed formula. -/
theorem mathru_C7_error_norm {T : Type} [LinearOrderedField T] :
    (∀ (pw : T → T → T) (cfg : AdaptiveStepper T) (ys y_hats : List T),
        ys.length = y_hats.length →
        AdaptiveStepper.calc_error pw cfg (Vector.new_row ys) (Vector.new_row y_hats)
          = pw (specMeanSqError cfg.abs_tol cfg.rel_tol ys y_hats) (1 / 2))
    ∧ (∀ (pw : T → T → T) (cfg : AdaptiveStepper T) (ys y_hats : List T),
        AdaptiveStepper.calc_error pw cfg (Vector.new_column ys) (Vector.new_column y_hats)
          = pw (specMeanSqError cfg.abs_tol cfg.rel_tol
              [ys.getD 0 0] [y_hats.getD 0 0]) (1 / 2))
    ∧ (∀ (ys y_hats : List T), ys.length = y_hats.length → ys ≠ [] →
        DormandPrince54.calc_error (Vector.new_row ys) (Vector.new_row y_hats)
          = specInfNormDiff ys y_hats)
    ∧ (∀ (ys y_hats : List T), ys.length = y_hats.length → ys ≠ [] →
        DormandPrince54.calc_error (Vector.new_column ys) (Vector.new_column y_hats)
          = specInfNormDiff ys y_hats) := by
  refine ⟨?_, ?_, ?_, ?_⟩
  · intro pw cfg ys y_hats hlen
    simp only [AdaptiveStepper.calc_error, Vector.dim, Matrix.dim, Vector.new_row,
      Vector.get, Matrix.get, if_pos, Nat.mul_one, Nat.add_zero]
    congr 1
    rw [specMeanSqError, ← range_sum_zipWith
      (fun a b => ((a - b) / (cfg.abs_tol + cfg.rel_tol * max |a| |b|))
        * ((a - b) / (cfg.abs_tol + cfg.rel_tol * max |a| |b|))) ys y_hats hlen]
    congr 1
    congr 1
    apply List.map_congr_left
    intro i _
    ring
  · intro pw cfg ys y_hats
    simp only [AdaptiveStepper.calc_error, Vector.new_column_dim, Vector.get_new_column,
      List.map_cons, List.map_nil, List.sum_cons, List.sum_nil,
      specMeanSqError, List.zipWith_cons_cons, List.zipWith_nil_right, List.length_singleton,
      Nat.cast_one, add_zero]
    rw [show List.range 1 = [0] from rfl]
    simp only [List.map_cons, List.map_nil, List.sum_cons, List.sum_nil, add_zero]
    congr 1
    ring
  · intro ys y_hats hlen hne
    simp only [DormandPrince54.calc_error, Vector.vsub, Vector.vabs, Vector.new_row,
      Vector.argmax, Vector.toList, List.map_zipWith]
    cases ys with
    | nil => exact absurd rfl hne
    | cons y ys =>
      cases y_hats with
      | nil => simp at hlen
      | cons z y_hats =>
        simp only [List.zipWith_cons_cons]
        rw [Vector.get_of_row _ rfl]
        exact getD_argmaxList _ _ (abs_nonneg (y - z))
  · intro ys y_hats hlen hne
    simp only [DormandPrince54.calc_error, Vector.vsub, Vector.vabs, Vector.new_column,
      Vector.argmax, Vector.toList, List.map_zipWith]
    cases ys with
    | nil => exact absurd rfl hne
    | cons y ys =>
      cases y_hats with
      | nil => simp at hlen
      | cons z y_hats =>
        simp only [List.zipWith_cons_cons]
        rw [Vector.get_of_col _ rfl]
        exact getD_argmaxList _ _ (abs_nonneg (y - z))

/-- C7 counterexample: at `y = (1, 7)`, `ŷ = (0, 0)` with `abs_tol = 1`,
`rel_tol = 0`, the spec's mean of squares is `25`, whose nonnegative
square root is `5`; but `DormandPrince54::calc_error` returns `7`, and
`AdaptiveStepper::calc_error` on the column-vector estimates embedded
steps produce returns `1` (it sums over `0..dim().1 = 1`, so only the
first component enters). -/
theorem mathru_C7_error_norm_cex :
    DormandPrince54.calc_error (Vector.new_row [(1 : ℚ), 7]) (Vector.new_row [0, 0]) = 7
    ∧ AdaptiveStepper.calc_error (fun (x : ℚ) _ => x) ⟨10, 1, 1, 1, 1, 1, 0⟩
        (Vector.new_column [1, 7]) (Vector.new_column [0, 0]) = 1
    ∧ specMeanSqError (1 : ℚ) 0 [1, 7] [0, 0] = 25
    ∧ (5 : ℚ) * 5 = 25 ∧ (0 : ℚ) ≤ 5 ∧ (7 : ℚ) ≠ 5 ∧ (1 : ℚ) ≠ 5 := by
  refine ⟨?_, ?_, ?_, ?_, ?_, ?_, ?_⟩ <;> with_unfolding_all decide

/-- Witness for the amended C7: all four equalities evaluated at
`y = (1, 7)`, `ŷ = (0, 0)` with `abs_tol = 1`, `rel_tol = 0` and the
projection `pow := fst`, in both orientations. -/
theorem mathru_C7_error_norm_witness :
    AdaptiveStepper.calc_error (fun (x : ℚ) _ => x) ⟨10, 1, 1, 1, 1, 1, 0⟩
        (Vector.new_row [1, 7]) (Vector.new_row [0, 0])
      = (fun (x : ℚ) _ => x) (specMeanSqError (1 : ℚ) 0 [1, 7] [0, 0]) (1 / 2)
    ∧ AdaptiveStepper.calc_error (fun (x : ℚ) _ => x) ⟨10, 1, 1, 1, 1, 1, 0⟩
        (Vector.new_column [1, 7]) (Vector.new_column [0, 0])
      = (fun (x : ℚ) _ => x) (specMeanSqError (1 : ℚ) 0
          [([1, 7] : List ℚ).getD 0 0] [([0, 0] : List ℚ).getD 0 0]) (1 / 2)
    ∧ DormandPrince54.calc_error (Vector.new_row [(1 : ℚ), 7]) (Vector.new_row [0, 0])
      = specInfNormDiff [1, 7] [0, 0]
    ∧ DormandPrince54.calc_error (Vector.new_column [(1 : ℚ), 7]) (Vector.new_column [0, 0])
      = specInfNormDiff [1, 7] [0, 0] := by
  refine ⟨?_, ?_, ?_, ?_⟩
  · exact mathru_C7_error_norm.1 (fun (x : ℚ) _ => x) ⟨10, 1, 1, 1, 1, 1, 0⟩ [1, 7] [0, 0] rfl
  · exact mathru_C7_error_norm.2.1 (fun (x : ℚ) _ => x) ⟨10, 1, 1, 1, 1, 1, 0⟩ [1, 7] [0, 0]
  · exact mathru_C7_error_norm.2.2.1 [(1 : ℚ), 7] [0, 0] rfl (by decide)
  · exact mathru_C7_error_norm.2.2.2 [(1 : ℚ), 7] [0, 0] rfl (by decide)

section LoopInvariants

variable {T : Type} [LinearOrderedField T]

/-- Either an adaptive-stepper iteration accepts — advancing the time by
the clipped step and recording the pair — or it leaves time, state and
trajectory unchanged. -/
lemma asStep_cases (pw : T → T → T) (cfg : AdaptiveStepper T) (prob : ExplicitODE T)
    (method : ExplicitAdaptiveMethod T) (t_stop l : T) (s : OdeState T) :
    ((AdaptiveStepper.step pw cfg prob method t_stop l s).t_n
        = s.t_n + min s.h (t_stop - s.t_n)
      ∧ (AdaptiveStepper.step pw cfg prob method t_stop l s).t_vec
        = s.t_vec ++ [s.t_n + min s.h (t_stop - s.t_n)]
      ∧ (AdaptiveStepper.step pw cfg prob method t_stop l s).res_vec
        = s.res_vec ++ [(method.do_step prob s.t_n s.x_n (min s.h (t_stop - s.t_n))).1]
      ∧ (AdaptiveStepper.step pw cfg prob method t_stop l s).n = s.n + 1)
    ∨ ((AdaptiveStepper.step pw cfg prob method t_stop l s).t_n = s.t_n
      ∧ (AdaptiveStepper.step pw cfg prob method t_stop l s).t_vec = s.t_vec
      ∧ (AdaptiveStepper.step pw cfg prob method t_stop l s).res_vec = s.res_vec
      ∧ (AdaptiveStepper.step pw cfg prob method t_stop l s).n = s.n) := by
  unfold AdaptiveStepper.step
  simp only [ne_eq]
  split_ifs <;> first | (left; exact ⟨rfl, rfl, rfl, rfl⟩) | (right; exact ⟨rfl, rfl, rfl, rfl⟩)

/-- Positivity of the step size is preserved by an adaptive-stepper
iteration when both clamp bounds are positive and the loop guard holds. -/
lemma asStep_h_pos (pw : T → T → T) (cfg : AdaptiveStepper T) (prob : ExplicitODE T)
    (method : ExplicitAdaptiveMethod T) (t_stop l : T) (s : OdeState T)
    (hmin : 0 < cfg.fac_min) (hmax : 0 < cfg.fac_max) (hh : 0 < s.h) (ht : s.t_n < t_stop) :
    0 < (AdaptiveStepper.step pw cfg prob method t_stop l s).h := by
  have h1 : 0 < min s.h (t_stop - s.t_n) := lt_min hh (sub_pos.mpr ht)
  unfold AdaptiveStepper.step
  simp only [ne_eq]
  split_ifs <;>
    first
      | exact h1
      | exact mul_pos hmax h1
      | exact mul_pos hmin h1
      | (apply mul_pos _ h1; linarith)

/-- The same dichotomy for a Dormand-Prince iteration. -/
lemma dp54Step_cases (pw : T → T → T) (cfg : DormandPrince54 T) (prob : ExplicitODE T)
    (t_stop : T) (s : OdeState T) :
    ((DormandPrince54.step pw cfg prob t_stop s).t_n = s.t_n + min s.h (t_stop - s.t_n)
      ∧ (DormandPrince54.step pw cfg prob t_stop s).t_vec
        = s.t_vec ++ [s.t_n + min s.h (t_stop - s.t_n)]
      ∧ (DormandPrince54.step pw cfg prob t_stop s).res_vec
        = s.res_vec
          ++ [(DormandPrince54.do_step prob s.t_n s.x_n (min s.h (t_stop - s.t_n))).1]
      ∧ (DormandPrince54.step pw cfg prob t_stop s).n = s.n + 1)
    ∨ ((DormandPrince54.step pw cfg prob t_stop s).t_n = s.t_n
      ∧ (DormandPrince54.step pw cfg prob t_stop s).t_vec = s.t_vec
      ∧ (DormandPrince54.step pw cfg prob t_stop s).res_vec = s.res_vec
      ∧ (DormandPrince54.step pw cfg prob t_stop s).n = s.n) := by
  unfold DormandPrince54.step
  simp only []
  split_ifs <;> first | (left; exact ⟨rfl, rfl, rfl, rfl⟩) | (right; exact ⟨rfl, rfl, rfl, rfl⟩)

/-- A predicate preserved by the loop body holds for whatever state the
adaptive-stepper loop finishes in. -/
lemma asLoop_preserve (pw : T → T → T) (cfg : AdaptiveStepper T) (prob : ExplicitODE T)
    (method : ExplicitAdaptiveMethod T) (t_stop l : T) (P : OdeState T → Prop)
    (hstep : ∀ s, P s → s.n < cfg.n_max → s.t_n < t_stop →
      P (AdaptiveStepper.step pw cfg prob method t_stop l s)) :
    ∀ (fuel : Nat) (s s₂ : OdeState T), P s →
      AdaptiveStepper.loop pw cfg prob method t_stop l fuel s = some s₂ → P s₂ := by
  intro fuel
  induction fuel with
  | zero =>
    intro s s₂ hP h
    by_cases hc : s.n < cfg.n_max ∧ s.t_n < t_stop
    · rw [AdaptiveStepper.loop, if_pos hc] at h; cases h
    · rw [AdaptiveStepper.loop, if_neg hc] at h
      injection h with h; exact h ▸ hP
  | succ f ih =>
    intro s s₂ hP h
    by_cases hc : s.n < cfg.n_max ∧ s.t_n < t_stop
    · rw [AdaptiveStepper.loop, if_pos hc] at h
      exact ih _ s₂ (hstep s hP hc.1 hc.2) h
    · rw [AdaptiveStepper.loop, if_neg hc] at h
      injection h with h; exact h ▸ hP

/-- A predicate preserved by the loop body holds for whatever state the
Dormand-Prince loop finishes in. -/
lemma dp54Loop_preserve (pw : T → T → T) (cfg : DormandPrince54 T) (prob : ExplicitODE T)
    (t_stop : T) (P : OdeState T → Prop)
    (hstep : ∀ s, P s → s.n < cfg.n_max → s.t_n < t_stop →
      P (DormandPrince54.step pw cfg prob t_stop s)) :
    ∀ (fuel : Nat) (s s₂ : OdeState T), P s →
      DormandPrince54.loop pw cfg prob t_stop fuel s = some s₂ → P s₂ := by
  intro fuel
  induction fuel with
  | zero =>
    intro s s₂ hP h
    by_cases hc : s.n < cfg.n_max ∧ s.t_n < t_stop
    · rw [DormandPrince54.loop, if_pos hc] at h; cases h
    · rw [DormandPrince54.loop, if_neg hc] at h
      injection h with h; exact h ▸ hP
  | succ f ih =>
    intro s s₂ hP h
    by_cases hc : s.n < cfg.n_max ∧ s.t_n < t_stop
    · rw [DormandPrince54.loop, if_pos hc] at h
      exact ih _ s₂ (hstep s hP hc.1 hc.2) h
    · rw [DormandPrince54.loop, if_neg hc] at h
      injection h with h; exact h ▸ hP

/-- Inversion of a successful `AdaptiveStepper::solve`: the run did not
panic and the payload is the loop's final trajectory. -/
lemma asSolve_some_ok (pw : T → T → T) (cfg : AdaptiveStepper T) (prob : ExplicitODE T)
    (method : ExplicitAdaptiveMethod T) (fuel : Nat) (ts : List T) (xs : List (Vector T))
    (h : AdaptiveStepper.solve pw cfg prob method fuel = some (Except.ok (ts, xs))) :
    ∃ s₂, AdaptiveStepper.loop pw cfg prob method prob.time_span.2
        (1 / (((max method.order.1 method.order.2 : Nat) : T) + 1)) fuel
        ⟨prob.time_span.1, prob.init_cond, cfg.h_0, 0, [prob.time_span.1], [prob.init_cond]⟩
        = some s₂
      ∧ ts = s₂.t_vec ∧ xs = s₂.res_vec ∧ prob.time_span.1 ≤ prob.time_span.2 := by
  simp only [AdaptiveStepper.solve] at h
  by_cases hg : prob.time_span.2 < prob.time_span.1
  · rw [if_pos hg] at h; cases h
  · rw [if_neg hg] at h
    cases hl : AdaptiveStepper.loop pw cfg prob method prob.time_span.2
        (1 / (((max method.order.1 method.order.2 : Nat) : T) + 1)) fuel
        ⟨prob.time_span.1, prob.init_cond, cfg.h_0, 0, [prob.time_span.1],
          [prob.init_cond]⟩ with
    | none => rw [hl] at h; cases h
    | some s₂ =>
      rw [hl] at h
      simp only [Option.map_some', Option.some.injEq, Except.ok.injEq] at h
      exact ⟨s₂, rfl, congrArg Prod.fst h.symm, congrArg Prod.snd h.symm, not_lt.mp hg⟩

/-- Inversion of a successful `DormandPrince54::solve`. -/
lemma dp54Solve_some_ok (pw : T → T → T) (cfg : DormandPrince54 T) (prob : ExplicitODE T)
    (fuel : Nat) (ts : List T) (xs : List (Vector T))
    (h : DormandPrince54.solve pw cfg prob fuel = some (Except.ok (ts, xs))) :
    ∃ s₂, DormandPrince54.loop pw cfg prob prob.time_span.2 fuel
        ⟨prob.time_span.1, prob.init_cond, cfg.h_0, 0, [prob.time_span.1], [prob.init_cond]⟩
        = some s₂
      ∧ ts = s₂.t_vec ∧ xs = s₂.res_vec ∧ prob.time_span.1 ≤ prob.time_span.2 := by
  simp only [DormandPrince54.solve] at h
  by_cases hg : prob.time_span.2 < prob.time_span.1
  · rw [if_pos hg] at h; cases h
  · rw [if_neg hg] at h
    cases hl : DormandPrince54.loop pw cfg prob prob.time_span.2 fuel
        ⟨prob.time_span.1, prob.init_cond, cfg.h_0, 0, [prob.time_span.1],
          [prob.init_cond]⟩ with
    | none => rw [hl] at h; cases h
    | some s₂ =>
      rw [hl] at h
      simp only [Option.map_some', Option.some.injEq] at h
      by_cases hfin : s₂.t_n < prob.time_span.2
      · rw [if_pos hfin] at h; cases h
      · rw [if_neg hfin] at h
        simp only [Except.ok.injEq] at h
        exact ⟨s₂, rfl, congrArg Prod.fst h.symm, congrArg Prod.snd h.symm, not_lt.mp hg⟩

end LoopInvariants

/-- C5: for both adaptive solvers, under `t_start ≤ t_stop`, every time
value recorded in a successfully returned trajectory is at most `t_stop`:
each step is clipped to `min(h, t_stop − t_n)` before being taken. -/
theorem mathru_C5_step_clipping {T : Type} [LinearOrderedField T] :
    (∀ (pw : T → T → T) (cfg : AdaptiveStepper T) (prob : ExplicitODE T)
        (method : ExplicitAdaptiveMethod T) (fuel : Nat) (ts : List T) (xs : List (Vector T)),
        prob.time_span.1 ≤ prob.time_span.2 →
        AdaptiveStepper.solve pw cfg prob method fuel = some (Except.ok (ts, xs)) →
        ∀ t ∈ ts, t ≤ prob.time_span.2)
    ∧ (∀ (pw : T → T → T) (cfg : DormandPrince54 T) (prob : ExplicitODE T)
        (fuel : Nat) (ts : List T) (xs : List (Vector T)),
        prob.time_span.1 ≤ prob.time_span.2 →
        DormandPrince54.solve pw cfg prob fuel = some (Except.ok (ts, xs)) →
        ∀ t ∈ ts, t ≤ prob.time_span.2) := by
  constructor
  · intro pw cfg prob method fuel ts xs hspan hsolve
    obtain ⟨s₂, hloop, hts, _, _⟩ := asSolve_some_ok pw cfg prob method fuel ts xs hsolve
    have hfinal := asLoop_preserve pw cfg prob method prob.time_span.2
      (1 / (((max method.order.1 method.order.2 : Nat) : T) + 1))
      (fun s => (∀ t ∈ s.t_vec, t ≤ prob.time_span.2) ∧ s.t_n ≤ prob.time_span.2)
      (by
        intro s hP _ ht
        rcases asStep_cases pw cfg prob method prob.time_span.2
            (1 / (((max method.order.1 method.order.2 : Nat) : T) + 1)) s with
          ⟨h1, h2, _, _⟩ | ⟨h1, h2, _, _⟩
        · have hstep_le : s.t_n + min s.h (prob.time_span.2 - s.t_n) ≤ prob.time_span.2 := by
            have := min_le_right s.h (prob.time_span.2 - s.t_n)
            linarith
          refine ⟨?_, by rw [h1]; exact hstep_le⟩
          rw [h2]
          intro t htmem
          rcases List.mem_append.mp htmem with hmem | hmem
          · exact hP.1 t hmem
          · rw [List.mem_singleton.mp hmem]; exact hstep_le
        · exact ⟨h2 ▸ hP.1, h1 ▸ hP.2⟩)
      fuel _ s₂ ⟨by intro t htmem; rw [List.mem_singleton.mp htmem]; exact hspan, hspan⟩ hloop
    rw [hts]
    exact hfinal.1
  · intro pw cfg prob fuel ts xs hspan hsolve
    obtain ⟨s₂, hloop, hts, _, _⟩ := dp54Solve_some_ok pw cfg prob fuel ts xs hsolve
    have hfinal := dp54Loop_preserve pw cfg prob prob.time_span.2
      (fun s => (∀ t ∈ s.t_vec, t ≤ prob.time_span.2) ∧ s.t_n ≤ prob.time_span.2)
      (by
        intro s hP _ ht
        rcases dp54Step_cases pw cfg prob prob.time_span.2 s with
          ⟨h1, h2, _, _⟩ | ⟨h1, h2, _, _⟩
        · have hstep_le : s.t_n + min s.h (prob.time_span.2 - s.t_n) ≤ prob.time_span.2 := by
            have := min_le_right s.h (prob.time_span.2 - s.t_n)
            linarith
          refine ⟨?_, by rw [h1]; exact hstep_le⟩
          rw [h2]
          intro t htmem
          rcases List.mem_append.mp htmem with hmem | hmem
          · exact hP.1 t hmem
          · rw [List.mem_singleton.mp hmem]; exact hstep_le
        · exact ⟨h2 ▸ hP.1, h1 ▸ hP.2⟩)
      fuel _ s₂ ⟨by intro t htmem; rw [List.mem_singleton.mp htmem]; exact hspan, hspan⟩ hloop
    rw [hts]
    exact hfinal.1

/-- Witness for C5: both solvers run on concrete problems; every recorded
time is at most `t_stop`. -/
theorem mathru_C5_step_clipping_witness :
    (∀ t ∈ ([0, 1] : List ℚ), t ≤ (10 : ℚ))
    ∧ (∀ t ∈ ([0, 1 / 10] : List ℚ), t ≤ ((1 : ℚ) / 10)) := by
  constructor
  · have := mathru_C5_step_clipping.1 (fun _ _ => (1 : ℚ)) ⟨1, 1, 1, 1 / 2, 2, 1, 0⟩
      ⟨fun _ _ => Vector.new_column [0], (0, 10), Vector.new_column [0]⟩
      ⟨fun _ _ x _ => (x, x), (4, 5)⟩ 5 [0, 1]
      [Vector.new_column [0], Vector.new_column [0]]
      (by norm_num) (by with_unfolding_all decide)
    exact this
  · have := mathru_C5_step_clipping.2 (fun _ _ => (1 : ℚ)) ⟨1, 1 / 10, 10⟩
      ⟨fun _ _ => Vector.new_column [0], (0, 1 / 10), Vector.new_column [0]⟩ 5 [0, 1 / 10]
      [Vector.new_column [0], Vector.new_column [0]]
      (by norm_num) (by with_unfolding_all decide)
    exact this

/-- C10 amended: for every successful solve with `t_start ≤ t_stop`, both
solvers return time and state lists of equal length at least `1` whose
first entries are `t_start` and the problem's initial condition; and for
`AdaptiveStepper`, when `h_0 > 0`, `fac_min > 0` and additionally
`fac_max > 0`, the recorded times are strictly increasing. -/
theorem mathru_C10_trajectory_shape {T : Type} [LinearOrderedField T] :
    (∀ (pw : T → T → T) (cfg : AdaptiveStepper T) (prob : ExplicitODE T)
        (method : ExplicitAdaptiveMethod T) (fuel : Nat) (ts : List T) (xs : List (Vector T)),
        AdaptiveStepper.solve pw cfg prob method fuel = some (Except.ok (ts, xs)) →
        ts.length = xs.length ∧ ts ≠ []
          ∧ ts.head? = some prob.time_span.1 ∧ xs.head? = some prob.init_cond)
    ∧ (∀ (pw : T → T → T) (cfg : DormandPrince54 T) (prob : ExplicitODE T)
        (fuel : Nat) (ts : List T) (xs : List (Vector T)),
        DormandPrince54.solve pw cfg prob fuel = some (Except.ok (ts, xs)) →
        ts.length = xs.length ∧ ts ≠ []
          ∧ ts.head? = some prob.time_span.1 ∧ xs.head? = some prob.init_cond)
    ∧ (∀ (pw : T → T → T) (cfg : AdaptiveStepper T) (prob : ExplicitODE T)
        (method : ExplicitAdaptiveMethod T) (fuel : Nat) (ts : List T) (xs : List (Vector T)),
        0 < cfg.h_0 → 0 < cfg.fac_min → 0 < cfg.fac_max →
        AdaptiveStepper.solve pw cfg prob method fuel = some (Except.ok (ts, xs)) →
        List.Chain' (· < ·) ts) := by
  refine ⟨?_, ?_, ?_⟩
  · intro pw cfg prob method fuel ts xs hsolve
    obtain ⟨s₂, hloop, hts, hxs, _⟩ := asSolve_some_ok pw cfg prob method fuel ts xs hsolve
    have hfinal := asLoop_preserve pw cfg prob method prob.time_span.2
      (1 / (((max method.order.1 method.order.2 : Nat) : T) + 1))
      (fun s => s.t_vec.length = s.res_vec.length ∧ s.t_vec ≠ []
        ∧ s.t_vec.head? = some prob.time_span.1 ∧ s.res_vec.head? = some prob.init_cond)
      (by
        intro s hP _ _
        rcases asStep_cases pw cfg prob method prob.time_span.2
            (1 / (((max method.order.1 method.order.2 : Nat) : T) + 1)) s with
          ⟨_, h2, h3, _⟩ | ⟨_, h2, h3, _⟩
        · refine ⟨by rw [h2, h3]; simp [hP.1], by rw [h2]; simp, ?_, ?_⟩
          · rw [h2, List.head?_append_of_ne_nil _ hP.2.1]; exact hP.2.2.1
          · rw [h3]
            have hres_ne : s.res_vec ≠ [] := by
              intro hnil
              rw [hnil] at hP
              exact (by simpa using hP.2.2.2 : False)
            rw [List.head?_append_of_ne_nil _ hres_ne]; exact hP.2.2.2
        · exact ⟨h2 ▸ h3 ▸ hP.1, h2 ▸ hP.2.1, h2 ▸ hP.2.2.1, h3 ▸ hP.2.2.2⟩)
      fuel _ s₂ ⟨by rfl, by simp, by rfl, by rfl⟩ hloop
    exact ⟨hts ▸ hxs ▸ hfinal.1, hts ▸ hfinal.2.1, hts ▸ hfinal.2.2.1, hxs ▸ hfinal.2.2.2⟩
  · intro pw cfg prob fuel ts xs hsolve
    obtain ⟨s₂, hloop, hts, hxs, _⟩ := dp54Solve_some_ok pw cfg prob fuel ts xs hsolve
    have hfinal := dp54Loop_preserve pw cfg prob prob.time_span.2
      (fun s => s.t_vec.length = s.res_vec.length ∧ s.t_vec ≠ []
        ∧ s.t_vec.head? = some prob.time_span.1 ∧ s.res_vec.head? = some prob.init_cond)
      (by
        intro s hP _ _
        rcases dp54Step_cases pw cfg prob prob.time_span.2 s with
          ⟨_, h2, h3, _⟩ | ⟨_, h2, h3, _⟩
        · refine ⟨by rw [h2, h3]; simp [hP.1], by rw [h2]; simp, ?_, ?_⟩
          · rw [h2, List.head?_append_of_ne_nil _ hP.2.1]; exact hP.2.2.1
          · rw [h3]
            have hres_ne : s.res_vec ≠ [] := by
              intro hnil
              rw [hnil] at hP
              exact (by simpa using hP.2.2.2 : False)
            rw [List.head?_append_of_ne_nil _ hres_ne]; exact hP.2.2.2
        · exact ⟨h2 ▸ h3 ▸ hP.1, h2 ▸ hP.2.1, h2 ▸ hP.2.2.1, h3 ▸ hP.2.2.2⟩)
      fuel _ s₂ ⟨by rfl, by simp, by rfl, by rfl⟩ hloop
    exact ⟨hts ▸ hxs ▸ hfinal.1, hts ▸ hfinal.2.1, hts ▸ hfinal.2.2.1, hxs ▸ hfinal.2.2.2⟩
  · intro pw cfg prob method fuel ts xs hh0 hmin hmax hsolve
    obtain ⟨s₂, hloop, hts, _, _⟩ := asSolve_some_ok pw cfg prob method fuel ts xs hsolve
    have hfinal := asLoop_preserve pw cfg prob method prob.time_span.2
      (1 / (((max method.order.1 method.order.2 : Nat) : T) + 1))
      (fun s => 0 < s.h ∧ List.Chain' (· < ·) s.t_vec ∧ s.t_vec.getLast? = some s.t_n)
      (by
        intro s hP hn ht
        refine ⟨asStep_h_pos pw cfg prob method prob.time_span.2 _ s hmin hmax hP.1 ht, ?_⟩
        rcases asStep_cases pw cfg prob method prob.time_span.2
            (1 / (((max method.order.1 method.order.2 : Nat) : T) + 1)) s with
          ⟨h1, h2, _, _⟩ | ⟨h1, h2, _, _⟩
        · have hstep_pos : s.t_n < s.t_n + min s.h (prob.time_span.2 - s.t_n) := by
            have := lt_min hP.1 (sub_pos.mpr ht)
            linarith
          constructor
          · rw [h2, List.chain'_append]
            refine ⟨hP.2.1, List.chain'_singleton _, ?_⟩
            intro x hx y hy
            rw [hP.2.2] at hx
            simp only [List.head?_cons, Option.mem_def, Option.some.injEq] at hx hy
            subst hx
            subst hy
            exact hstep_pos
          · rw [h1, h2, List.getLast?_concat]
        · exact ⟨h2 ▸ hP.2.1, h1 ▸ h2 ▸ hP.2.2⟩)
      fuel _ s₂ ⟨hh0, by simp, by rfl⟩ hloop
    exact hts ▸ hfinal.2.1

/-- C10 counterexample: with `h_0 = 1 > 0` and `fac_min = 1/2 > 0` but
`fac_max = −1`, a successful adaptive solve over `(0, 10)` records the
times `[0, 1, 0]`, which are not strictly increasing: the clamp sets the
scale factor to the negative `fac_max`, making the step size negative. -/
theorem mathru_C10_trajectory_shape_cex :
    AdaptiveStepper.solve (fun _ _ => (1 : ℚ)) ⟨2, 1, 1, 1 / 2, -1, 1, 0⟩
        ⟨fun _ x => x, (0, 10), Vector.new_column [0]⟩ ⟨fun _ _ x _ => (x, x), (4, 5)⟩ 5
      = some (Except.ok ([0, 1, 0],
          [Vector.new_column [0], Vector.new_column [0], Vector.new_column [0]]))
    ∧ (0 : ℚ) < 1 ∧ (0 : ℚ) < 1 / 2 ∧ (0 : ℚ) ≤ 10
    ∧ ¬ List.Chain' (· < ·) [(0 : ℚ), 1, 0] := by
  refine ⟨?_, by norm_num, by norm_num, by norm_num, ?_⟩
  · with_unfolding_all decide
  · intro hch
    have := (List.chain'_cons.mp (List.chain'_cons.mp hch).2).1
    norm_num at this

/-- Witness for the amended C10: a successful adaptive solve with all
three positivity conditions records `[0, 1, 2]`, strictly increasing,
with matching lengths and correct heads. -/
theorem mathru_C10_trajectory_shape_witness :
    (([0, 1, 2] : List ℚ).length
        = ([Vector.new_column [0], Vector.new_column [0],
            Vector.new_column ([0] : List ℚ)]).length
      ∧ ([0, 1, 2] : List ℚ) ≠ []
      ∧ ([0, 1, 2] : List ℚ).head? = some ((0 : ℚ), (2 : ℚ)).1
      ∧ ([Vector.new_column [0], Vector.new_column [0],
          Vector.new_column ([0] : List ℚ)]).head? = some (Vector.new_column [0]))
    ∧ List.Chain' (· < ·) ([0, 1, 2] : List ℚ) := by
  constructor
  · exact mathru_C10_trajectory_shape.1 (fun _ _ => (1 : ℚ)) ⟨10, 1, 1, 1 / 2, 2, 1, 0⟩
      ⟨fun _ x => x, (0, 2), Vector.new_column [0]⟩ ⟨fun _ _ x _ => (x, x), (4, 5)⟩ 5
      [0, 1, 2] [Vector.new_column [0], Vector.new_column [0], Vector.new_column [0]]
      (by with_unfolding_all decide)
  · exact mathru_C10_trajectory_shape.2.2 (fun _ _ => (1 : ℚ)) ⟨10, 1, 1, 1 / 2, 2, 1, 0⟩
      ⟨fun _ x => x, (0, 2), Vector.new_column [0]⟩ ⟨fun _ _ x _ => (x, x), (4, 5)⟩ 5
      [0, 1, 2] [Vector.new_column [0], Vector.new_column [0], Vector.new_column [0]]
      (by norm_num) (by norm_num) (by norm_num) (by with_unfolding_all decide)

end Mathru
